import Mathlib

/-!
The debug-formatting facility of olibuild, `fmt.hpp`.

A shallow embedding of `src/olibuildstd/fmt.hpp` and the properties of its
renderings.

Conventions of the embedding.

* A `std::ostream` is modelled by the text written to it so far (`OStream`),
  in its default formatting state (decimal base, no width, no `showpos`).
  `os << x` becomes `os ++ text`.  The field width and the numeric base of a
  stream are modelled apart, for the integer formatters (`FormattedStream`).
* C++ types are first-order data (`Ty`); the values of a type are `Val T`.
  A `std::unordered_map` is its sequence of entries in iteration order.
* Template resolution happens at build time.  An instantiation that the
  compiler rejects (a failing `static_assert`, no matching `operator<<`, no
  member `fmt`) is the outcome `Failure.illFormed`; it never depends on the
  value, only on the type and the tags.
* Undefined behaviour at run time is the outcome `Failure.undefinedBehaviour`.
-/

namespace fmt

/-- Content of a `std::ostream`: the characters written so far. -/
abbrev OStream := String

/-- The ways in which a rendering can fail to produce text. -/
inductive Failure where
  /-- The program is rejected at build time. -/
  | illFormed
  /-- The program runs into undefined behaviour. -/
  | undefinedBehaviour
  deriving DecidableEq, Repr

deriving instance DecidableEq for Except

/-- Outcome of a stream operation. -/
abbrev Result := Except Failure OStream

/-- The `Iterator` template parameter of `fmtCollection`: something with a
`size()` query and a range-`for` iteration.  `size` is what `iter.size()`
returns, `items` is what `for (auto item : iter)` yields, in order. -/
structure Iterable (Item : Type) where
  size : Nat
  items : List Item

/-- A standard container: `size()` is the number of items iterated. -/
def Iterable.ofList {Item : Type} (xs : List Item) : Iterable Item :=
  ⟨xs.length, xs⟩

/-- The body of the loop `for (it = vec.begin(); it != end; ++it)` of
`fmtCollection`: `put(os, *it); os << delimiter;`. -/
def fmtCollection.step {Item : Type} (put : OStream → Item → Result)
    (delimiter : String) (os : OStream) (item : Item) : Result :=
  match put os item with
  | .error e => .error e
  | .ok os1 => .ok (os1 ++ delimiter)

/-- The loop of `fmtCollection` over the positions `[vec.begin(), end)`. -/
def fmtCollection.loop {Item : Type} (put : OStream → Item → Result)
    (delimiter : String) : List Item → OStream → Result
  | [], os => .ok os
  | item :: rest, os =>
    match fmtCollection.step put delimiter os item with
    | .error e => .error e
    | .ok os1 => fmtCollection.loop put delimiter rest os1

/-- The function `fmtCollection` (fmt.hpp, lines 80-102).

```
if (iter.size() == 0) return os << empty;
auto vec = std::vector<Item>();
for (auto item : iter) vec.push_back(item);
os << lBrace;
auto end = --vec.end();
for (auto it = vec.begin(); it != end; ++it) { put(os, *it); os << delimiter; }
put(os, *end);
return os << rBrace;
```

`vec` is `iter.items`.  `--vec.end()` is the position of the last element;
on an empty `vec` it is out of range (undefined behaviour).  The positions
`[vec.begin(), end)` are the items of `vec.dropLast`. -/
def fmtCollection {Item : Type} (os : OStream) (iter : Iterable Item)
    (lBrace : String) (put : OStream → Item → Result)
    (delimiter rBrace empty : String) : Result :=
  if iter.size = 0 then
    .ok (os ++ empty)
  else
    let vec := iter.items
    let os1 := os ++ lBrace
    match vec.getLast? with
    | none => .error .undefinedBehaviour
    | some last =>
      match fmtCollection.loop put delimiter vec.dropLast os1 with
      | .error e => .error e
      | .ok os2 =>
        match put os2 last with
        | .error e => .error e
        | .ok os3 => .ok (os3 ++ rBrace)

/-! ## Types, tags and values -/

/-- The integer types `IMPL_DEBUG` is applied to (fmt.hpp, lines 61-70). -/
inductive IntTy where
  | signedChar
  | unsignedChar
  | shortInt
  | unsignedShortInt
  | int
  | unsignedInt
  | longInt
  | unsignedLongInt
  | longLongInt
  | unsignedLongLongInt
  deriving DecidableEq, Repr

/-- Signedness of an integer type. -/
def IntTy.isSigned : IntTy → Bool
  | .signedChar | .shortInt | .int | .longInt | .longLongInt => true
  | .unsignedChar | .unsignedShortInt | .unsignedInt | .unsignedLongInt
  | .unsignedLongLongInt => false

/-- Width in bits of an integer type (LP64 data model). -/
def IntTy.bits : IntTy → Nat
  | .signedChar | .unsignedChar => 8
  | .shortInt | .unsignedShortInt => 16
  | .int | .unsignedInt => 32
  | .longInt | .unsignedLongInt | .longLongInt | .unsignedLongLongInt => 64

/-- The values representable in an integer type. -/
def IntTy.representable (t : IntTy) (v : Int) : Prop :=
  if t.isSigned then -(2 ^ (t.bits - 1) : Int) ≤ v ∧ v < 2 ^ (t.bits - 1)
  else 0 ≤ v ∧ v < 2 ^ t.bits

instance (t : IntTy) (v : Int) : Decidable (t.representable v) := by
  unfold IntTy.representable
  exact inferInstance

/-- The two character types among the integer types: for these the standard
library's `operator<<(std::ostream&, signed char)` and
`operator<<(std::ostream&, unsigned char)` are selected, which write one
character instead of a number. -/
def IntTy.isCharacter : IntTy → Bool
  | .signedChar | .unsignedChar => true
  | _ => false

/-- Mode tags: the trailing `Args...` of `debug<T, Args...>`.  `Pretty` is the
marker `struct Pretty {}` (line 135); `other` stands for any other type used
as a tag. -/
inductive Tag where
  | Pretty
  | other (name : String)
  deriving DecidableEq, Repr

/-- The C++ types of the embedding.  `other` stands for any type for which
fmt.hpp has no `debug` specialisation (`double`, `bool`, `char`, ...). -/
inductive Ty where
  | int (t : IntTy)
  | string
  | vector (T : Ty)
  | unordered_map (K V : Ty)
  | other (name : String)
  deriving DecidableEq, Repr

/-- Values of a C++ type.  A `std::unordered_map<K, V>` is its sequence of
entries in iteration order (the keys of a real map are pairwise distinct and
hashable; nothing below depends on it); a value of an `other` type carries
no data. -/
def Val : Ty → Type
  | .int _ => Int
  | .string => String
  | .vector T => List (Val T)
  | .unordered_map K V => List (Val K × Val V)
  | .other _ => Unit

/-! ## Standard stream insertion -/

/-- Decimal numeral of a natural number, most significant digit first. -/
def decimalNat (n : Nat) : String :=
  (Nat.toDigits 10 n).asString

/-- Text written by `os << v` for a non-character integer on a stream in its
default formatting state: the decimal numeral, with `-` for negatives. -/
def decimal (v : Int) : String :=
  if v < 0 then "-" ++ decimalNat v.natAbs else decimalNat v.natAbs

/-- Text written by `os << v` for `v` of the integer type `t`.  The
character types write the single character with code `v mod 256`; all other
integer types write the decimal numeral. -/
def ostreamInt (t : IntTy) (v : Int) : String :=
  if t.isCharacter then String.singleton (Char.ofNat (v % 256).toNat)
  else decimal v

/-- Overload resolution of `os << item` for an `item` of type `T`, outside
any `Debug` handle: the standard library inserts integers and strings (the
raw text); it has no `operator<<` for `std::vector` or `std::unordered_map`,
and the hidden friend of `Debug` is not found for them.  `none`: no viable
overload, the expression does not compile.  For an `other` type the overload
is left unresolved (`none`): a vector of such elements is rejected by the
`static_assert` on the element capability in any case. -/
def ostreamInsert : (T : Ty) → Option (Val T → String)
  | .int t => some (ostreamInt t)
  | .string => some (fun (s : String) => s)
  | .vector _ => none
  | .unordered_map _ _ => none
  | .other _ => none

/-! ## Stream insertion on a stream with formatting state -/

/-- The numeric base of a stream (`std::ios_base::basefield`). -/
inductive Basefield where
  | dec
  | oct
  | hex
  deriving DecidableEq, Repr

/-- The part of the formatting state of a `std::ostream` that an integer
insertion reads: the field width and the numeric base.  The other flags are
at their defaults (fill character space, right adjustment, no `showbase`, no
`showpos`, lower case). -/
structure FormatState where
  width : Nat
  basefield : Basefield
  deriving DecidableEq, Repr

/-- The formatting state of a fresh stream: no field width, decimal base. -/
def FormatState.initial : FormatState :=
  ⟨0, .dec⟩

/-- A stream with its formatting state: the text written so far and the
state that `std::setw`, `std::hex`, `std::oct` and `std::dec` set. -/
structure FormattedStream where
  content : String
  format : FormatState
  deriving DecidableEq, Repr

/-- Padding of a formatted insertion: `body` is filled with spaces on the
left up to the field width. -/
def padLeft (width : Nat) (body : String) : String :=
  String.mk (List.replicate (width - body.length) ' ') ++ body

/-- Numeral of an integer in the base of the stream: the signed decimal
numeral in decimal base, the numeral of the two's complement bit pattern of
the type in octal and hexadecimal base. -/
def numeral (base : Basefield) (t : IntTy) (v : Int) : String :=
  match base with
  | .dec => decimal v
  | .oct => (Nat.toDigits 8 (v % (2 ^ t.bits : Nat)).toNat).asString
  | .hex => (Nat.toDigits 16 (v % (2 ^ t.bits : Nat)).toNat).asString

/-- The insertion `os << v` for `v` of the integer type `t` on a stream with
formatting state: the character or the numeral in the base of the stream,
padded to the field width; the insertion resets the field width to 0 and
keeps the base. -/
def ostreamIntOn (t : IntTy) (v : Int) (os : FormattedStream) : FormattedStream :=
  let body :=
    if t.isCharacter then String.singleton (Char.ofNat (v % 256).toNat)
    else numeral os.format.basefield t v
  ⟨os.content ++ padLeft os.format.width body, ⟨0, os.format.basefield⟩⟩

/-- The formatter that `IMPL_DEBUG(T)` defines (lines 51-59), on a stream
with formatting state: `os << self; return os;`. -/
def IMPL_DEBUG.fmt (t : IntTy) (os : FormattedStream) (self : Int) : FormattedStream :=
  ostreamIntOn t self os

/-! ## The capability registry `debug<T, Args...>` -/

/-- The member `implements` of `debug<T, Args...>`.  `none`: instantiating
the class fails its `static_assert` (lines 106 and 120, 141). -/
def debug.implements : Ty → List Tag → Option Bool
  | .int _, [] => some true
  | .string, [] => some true
  | .vector T, [] =>
    if debug.implements T [] = some true then some true else none
  | .unordered_map K V, [] =>
    if debug.implements K [] = some true ∧ debug.implements V [] = some true
    then some true else none
  | .unordered_map K V, [.Pretty] =>
    if debug.implements K [] = some true ∧ debug.implements V [] = some true
    then some true else none
  | _, _ => some false

/-- Whether the instantiation of the member function `debug<T, Args...>::fmt`
is accepted by the compiler: the class must instantiate with
`implements = true`, and every expression of the body must resolve.  For a
vector that is `os << item` on the element type; for a map it is
`dbg(item.first)` and `dbg(item.second)` written to the stream, which
instantiate `Debug<K>`, `Debug<V>` and their `fmt`. -/
def debug.wellFormed : Ty → List Tag → Bool
  | .int _, [] => true
  | .string, [] => true
  | .vector T, [] =>
    debug.implements T [] = some true && (ostreamInsert T).isSome
  | .unordered_map K V, [] =>
    debug.implements K [] = some true && debug.implements V [] = some true
      && debug.wellFormed K [] && debug.wellFormed V []
  | .unordered_map K V, [.Pretty] =>
    debug.implements K [] = some true && debug.implements V [] = some true
      && debug.wellFormed K [] && debug.wellFormed V []
  | _, _ => false

/-- Run-time behaviour of `debug<T, Args...>::fmt(os, self)`, for an
instantiation that compiles.

* integers (`IMPL_DEBUG`, lines 51-59): `os << self`;
* `std::string` (lines 72-78): `os << "\"" << self << "\""`;
* `std::vector<T>` (lines 104-115): `fmtCollection` with the callback
  `os << item`;
* `std::unordered_map<K, V>` (lines 117-133): `fmtCollection` with the
  callback `os << dbg(item.first) << ": " << dbg(item.second)`;
* `std::unordered_map<K, V>` with `Pretty` (lines 137-154): `fmtCollection`
  with the callback `os << "   " << dbg(item.first) << ": " << dbg(item.second)`.

`os << dbg(x)` for `x` of type `K` is `debug<K>::fmt(os, x)` (lines 41-49). -/
def debug.fmt.run : (T : Ty) → (Args : List Tag) → Val T → OStream → Result
  | .int t, [], self, os => .ok (os ++ ostreamInt t self)
  | .string, [], self, os =>
    let text : String := self
    .ok (os ++ "\"" ++ text ++ "\"")
  | .vector T, [], self, os =>
    match ostreamInsert T with
    | none => .error .illFormed
    | some insert =>
      fmtCollection os (Iterable.ofList self) "\x7b"
        (fun os item => .ok (os ++ insert item))
        ", " "\x7d" "\x7b\x7d"
  | .unordered_map K V, [], self, os =>
    fmtCollection os (Iterable.ofList self) "\x7b"
      (fun os item =>
        match debug.fmt.run K [] item.1 os with
        | .error e => .error e
        | .ok os1 => debug.fmt.run V [] item.2 (os1 ++ ": "))
      ", " "\x7d" "\x7b\x7d"
  | .unordered_map K V, [.Pretty], self, os =>
    fmtCollection os (Iterable.ofList self) "\x7b\n"
      (fun os item =>
        match debug.fmt.run K [] item.1 (os ++ "   ") with
        | .error e => .error e
        | .ok os1 => debug.fmt.run V [] item.2 (os1 ++ ": "))
      ",\n" "\n\x7d" "\x7b\x7d"
  | _, _, _, _ => .error .illFormed

/-- The call `debug<T, Args...>::fmt(os, self)`: rejected at build time when
the instantiation is not well formed, else its run-time behaviour. -/
def debug.fmt (T : Ty) (Args : List Tag) (self : Val T) (os : OStream) : Result :=
  if debug.wellFormed T Args then debug.fmt.run T Args self os
  else .error .illFormed

/-! ## The handle `Debug<T, Args...>` and the entry point `dbg` -/

/-- The handle `Debug<T, Args...>` (lines 27-45): a reference to the value. -/
structure Debug (T : Ty) (Args : List Tag) where
  inner : Val T

/-- The entry point `dbg<T, Args...>(value)` (lines 47-49).  Instantiating
`Debug<T, Args...>` checks `static_assert(formatter::implements, ...)`. -/
def dbg (T : Ty) (Args : List Tag) (value : Val T) : Except Failure (Debug T Args) :=
  if debug.implements T Args = some true then .ok ⟨value⟩ else .error .illFormed

/-- The member `args<NewArgs...>()` (lines 37-39): a handle over the same
value with another tag list. -/
def Debug.args {T : Ty} {Args : List Tag} (self : Debug T Args) (NewArgs : List Tag) :
    Except Failure (Debug T NewArgs) :=
  if debug.implements T NewArgs = some true then .ok ⟨self.inner⟩ else .error .illFormed

/-- The friend `operator<<(os, self)` (lines 41-44):
`return formatter::fmt(os, self.inner);`. -/
def Debug.insert {T : Ty} {Args : List Tag} (os : OStream) (self : Debug T Args) : Result :=
  debug.fmt T Args self.inner os

/-- The statement `os << dbg<T, Args...>(value)`. -/
def render (T : Ty) (Args : List Tag) (value : Val T) (os : OStream) : Result :=
  match dbg T Args value with
  | .error e => .error e
  | .ok handle => handle.insert os

/-- The statement `os << dbg<T, Args...>(value).args<NewArgs...>()`: the
handle is constructed with the tags `Args`, re-tagged, and written. -/
def renderArgs (T : Ty) (Args NewArgs : List Tag) (value : Val T) (os : OStream) : Result :=
  match dbg T Args value with
  | .error e => .error e
  | .ok handle =>
    match handle.args NewArgs with
    | .error e => .error e
    | .ok retagged => retagged.insert os

/-- Depth of the stack of formatter calls `debug<...>::fmt` reached while
rendering a value: the call itself, plus, for a mapping, the deepest call
made by its callback through `dbg(item.first)` and `dbg(item.second)`.  The
callback of a sequence is `os << item` and calls no formatter. -/
def debug.fmt.depth : (T : Ty) → (Args : List Tag) → Val T → Nat
  | .int _, [], _ => 1
  | .string, [], _ => 1
  | .vector _, [], _ => 1
  | .unordered_map K V, [], self =>
    let entries : List (Val K × Val V) := self
    1 + (entries.map (fun item =>
      max (debug.fmt.depth K [] item.1) (debug.fmt.depth V [] item.2))).foldr max 0
  | .unordered_map K V, [.Pretty], self =>
    let entries : List (Val K × Val V) := self
    1 + (entries.map (fun item =>
      max (debug.fmt.depth K [] item.1) (debug.fmt.depth V [] item.2))).foldr max 0
  | _, _, _ => 0

/-! ## Reference definitions for the collection contract -/

/-- Reference text, following the contract of the collection renderer:
`<delim><item_1><delim>...<delim><item_n-1>`, the part after the first item. -/
def joinTail (delimiter : String) : List String → String
  | [] => ""
  | t :: ts => delimiter ++ t ++ joinTail delimiter ts

/-- Reference text, following the contract of the collection renderer:
`<empty-token>` for zero items, else
`<left-brace><item_0><delim><item_1><delim>...<item_n-1><right-brace>`. -/
def joinText (lBrace delimiter rBrace empty : String) : List String → String
  | [] => empty
  | t :: ts => lBrace ++ t ++ joinTail delimiter ts ++ rBrace

/-- Reference run of the callback over the items after the first: for each
item in order, the delimiter is written and then `put` is called once. -/
def joinRun.tail {Item : Type} (put : OStream → Item → Result)
    (delimiter : String) : List Item → OStream → Result
  | [], os => .ok os
  | item :: rest, os =>
    match put (os ++ delimiter) item with
    | .error e => .error e
    | .ok os1 => joinRun.tail put delimiter rest os1

/-- Reference run of the collection contract with an arbitrary callback:
`put` is called exactly once per item, in order, between the braces and
with the delimiter written before every item but the first. -/
def joinRun {Item : Type} (os : OStream) (lBrace : String)
    (put : OStream → Item → Result) (delimiter rBrace empty : String) :
    List Item → Result
  | [] => .ok (os ++ empty)
  | item :: rest =>
    match put (os ++ lBrace) item with
    | .error e => .error e
    | .ok os1 =>
      match joinRun.tail put delimiter rest os1 with
      | .error e => .error e
      | .ok os2 => .ok (os2 ++ rBrace)

/-- Reference text of a mapping entry: `<key>: <value>`. -/
def entryText {α β : Type} (rK : α → String) (rV : β → String) (e : α × β) : String :=
  rK e.1 ++ ": " ++ rV e.2

/-- Reference text of the default mapping formatter, from the key and value
texts: left brace `{`, delimiter `, `, right brace `}`, empty token `{}`. -/
def mapText {α β : Type} (rK : α → String) (rV : β → String) (m : List (α × β)) : String :=
  joinText "\x7b" ", " "\x7d" "\x7b\x7d" (m.map (entryText rK rV))

/-- Reference text of the `Pretty` mapping formatter: left brace `{\n`, each
entry prefixed with three spaces, delimiter `,\n`, right brace `\n}`, empty
token `{}`. -/
def prettyMapText {α β : Type} (rK : α → String) (rV : β → String) (m : List (α × β)) :
    String :=
  joinText "\x7b\n" ",\n" "\n\x7d" "\x7b\x7d" (m.map (fun e => "   " ++ entryText rK rV e))

/-- The lines of a text: the maximal pieces between newline characters. -/
def splitLines : List Char → List (List Char)
  | [] => [[]]
  | c :: cs =>
    if c = '\n' then [] :: splitLines cs
    else
      match splitLines cs with
      | [] => [[c]]
      | line :: lines => (c :: line) :: lines

/-- Reference entry lines of the `Pretty` mapping rendering: one line per
entry, three spaces and the entry, with a comma after every entry but the
last. -/
def prettyLines {α β : Type} (rK : α → String) (rV : β → String) :
    List (α × β) → List String
  | [] => []
  | [e] => ["   " ++ entryText rK rV e]
  | e :: next :: rest =>
    ("   " ++ entryText rK rV e ++ ",") :: prettyLines rK rV (next :: rest)

/-- Nesting depth of a value: 0 for an integer or a string, and one more
than the deepest element, key or value for a container. -/
def Val.nesting : (T : Ty) → Val T → Nat
  | .int _, _ => 0
  | .string, _ => 0
  | .vector T, self =>
    let elements : List (Val T) := self
    1 + (elements.map (fun x => Val.nesting T x)).foldr max 0
  | .unordered_map K V, self =>
    let entries : List (Val K × Val V) := self
    1 + (entries.map (fun item =>
      max (Val.nesting K item.1) (Val.nesting V item.2))).foldr max 0
  | .other _, _ => 0

/-- Some value of each type (zero, the empty string, empty containers). -/
def Val.default : (T : Ty) → Val T
  | .int _ => (0 : Int)
  | .string => ""
  | .vector _ => []
  | .unordered_map _ _ => []
  | .other _ => ()

/-- A stream operation that only appends: its outcome on a stream with prior
content `os` is its outcome on the empty stream, prefixed by `os`. -/
def Appends (f : OStream → Result) : Prop :=
  ∀ os : OStream, f os = (f "").map (fun text => os ++ text)

/-- Whether `pattern` occurs at the start of `text`. -/
def startsWith : List Char → List Char → Bool
  | [], _ => true
  | _ :: _, [] => false
  | p :: ps, c :: cs => p == c && startsWith ps cs

/-- Number of positions of `text` at which `pattern` occurs. -/
def occurrences (pattern : List Char) : List Char → Nat
  | [] => 0
  | c :: cs => (if startsWith pattern (c :: cs) then 1 else 0) + occurrences pattern cs

/-- A text after which the delimiter `, ` cannot start or continue: placed
before a text that does not start with a space, it adds no occurrence. -/
def Quiet (text : List Char) : Prop :=
  ∀ rest : List Char, rest.head? ≠ some ' ' →
    occurrences [',', ' '] (text ++ rest) = occurrences [',', ' '] rest

/-! ## The collection renderer meets its contract -/

/-- The loop over all but the last item followed by the final `put` is the
reference run "first item, then delimiter and item for each further one". -/
theorem loop_then_last {Item : Type} (put : OStream → Item → Result)
    (delimiter : String) (xs : List Item) (x : Item) (os : OStream) :
    (fmtCollection.loop put delimiter (x :: xs).dropLast os).bind
        (fun os2 => put os2 ((x :: xs).getLast (List.cons_ne_nil x xs)))
      = (put os x).bind (joinRun.tail put delimiter xs) := by
  induction xs generalizing x os with
  | nil =>
    simp only [List.dropLast_single, fmtCollection.loop, List.getLast_singleton]
    cases hx : put os x <;> simp [joinRun.tail, Except.bind, hx]
  | cons y ys ih =>
    simp only [List.dropLast_cons₂, fmtCollection.loop, fmtCollection.step,
      List.getLast_cons_cons]
    cases hx : put os x with
    | error e => simp [Except.bind]
    | ok os1 =>
      have h := ih y (os1 ++ delimiter)
      simp only [Except.bind, joinRun.tail] at h ⊢
      rw [h]
      cases put (os1 ++ delimiter) y <;> rfl

/-- Running the reference tail with an appending callback appends the
reference tail text. -/
theorem joinRun_tail_append {Item : Type} (r : Item → String)
    (delimiter : String) (xs : List Item) (os : OStream) :
    joinRun.tail (fun o x => .ok (o ++ r x)) delimiter xs os
      = .ok (os ++ joinTail delimiter (xs.map r)) := by
  induction xs generalizing os with
  | nil => simp [joinRun.tail, joinTail]
  | cons y ys ih =>
    simp only [joinRun.tail, List.map_cons, joinTail]
    rw [ih]
    simp [String.append_assoc]

/-- The reference run with an appending callback appends the reference text. -/
theorem joinRun_append {Item : Type} (r : Item → String)
    (lBrace delimiter rBrace empty : String) (xs : List Item) (os : OStream) :
    joinRun os lBrace (fun o x => .ok (o ++ r x)) delimiter rBrace empty xs
      = .ok (os ++ joinText lBrace delimiter rBrace empty (xs.map r)) := by
  cases xs with
  | nil => simp [joinRun, joinText]
  | cons y ys =>
    simp only [joinRun, List.map_cons, joinText]
    rw [joinRun_tail_append]
    simp [String.append_assoc]

/-- On a source whose `size()` is its number of items, `fmtCollection` is the
reference run, for every callback. -/
theorem fmtCollection_eq_joinRun {Item : Type} (os : OStream)
    (iter : Iterable Item) (lBrace : String) (put : OStream → Item → Result)
    (delimiter rBrace empty : String) (hsize : iter.size = iter.items.length) :
    fmtCollection os iter lBrace put delimiter rBrace empty
      = joinRun os lBrace put delimiter rBrace empty iter.items := by
  obtain ⟨size, items⟩ := iter
  simp only at hsize
  subst hsize
  cases items with
  | nil => simp [fmtCollection, joinRun]
  | cons x xs =>
    have h := loop_then_last put delimiter xs x (os ++ lBrace)
    simp only [fmtCollection, List.length_cons, Nat.add_one_ne_zero, if_false,
      List.getLast?_eq_getLast _ (List.cons_ne_nil x xs), joinRun]
    cases hl : fmtCollection.loop put delimiter (x :: xs).dropLast (os ++ lBrace) with
    | error e =>
      rw [hl] at h
      cases hp : put (os ++ lBrace) x with
      | error e1 =>
        rw [hp] at h
        simp only [Except.bind] at h
        simp [h]
      | ok os1 =>
        rw [hp] at h
        simp only [Except.bind] at h
        simp [← h]
    | ok os2 =>
      rw [hl] at h
      cases hp : put (os ++ lBrace) x with
      | error e1 =>
        rw [hp] at h
        simp only [Except.bind] at h
        simp [h]
      | ok os1 =>
        rw [hp] at h
        simp only [Except.bind] at h
        simp [h]

/-- On a source whose `size()` is its number of items, `fmtCollection` with
an appending callback appends the reference text. -/
theorem fmtCollection_append_text {Item : Type} (os : OStream)
    (iter : Iterable Item) (lBrace delimiter rBrace empty : String)
    (hsize : iter.size = iter.items.length) (r : Item → String) :
    fmtCollection os iter lBrace (fun o x => .ok (o ++ r x)) delimiter rBrace empty
      = .ok (os ++ joinText lBrace delimiter rBrace empty (iter.items.map r)) := by
  rw [fmtCollection_eq_joinRun os iter lBrace _ delimiter rBrace empty hsize]
  exact joinRun_append r lBrace delimiter rBrace empty iter.items os

/-- C1. `fmtCollection` equals the reference join.  For every source whose
`size()` equals the number of items it yields, and every brace, delimiter and
empty token: (1) for every callback `put`, the run is the reference run, in
which `put` is called exactly once per item in iteration order; (2) when the
callback appends a text `r x` for the item `x`, the text appended to the
stream is the empty token for zero items and otherwise
`lBrace ++ r x_0 ++ delimiter ++ r x_1 ++ ... ++ delimiter ++ r x_{n-1} ++ rBrace`. -/
theorem fmtCollection_equals_join {Item : Type} (os : OStream)
    (iter : Iterable Item) (lBrace delimiter rBrace empty : String)
    (hsize : iter.size = iter.items.length) :
    (∀ put : OStream → Item → Result,
      fmtCollection os iter lBrace put delimiter rBrace empty
        = joinRun os lBrace put delimiter rBrace empty iter.items)
    ∧ (∀ r : Item → String,
      fmtCollection os iter lBrace (fun o x => .ok (o ++ r x)) delimiter rBrace empty
        = .ok (os ++ joinText lBrace delimiter rBrace empty (iter.items.map r))) := by
  constructor
  · intro put
    exact fmtCollection_eq_joinRun os iter lBrace put delimiter rBrace empty hsize
  · intro r
    exact fmtCollection_append_text os iter lBrace delimiter rBrace empty hsize r

/-- Witness for C1: the sequence `[1, 2, 3]` of a standard container. -/
theorem fmtCollection_equals_join_witness :
    (Iterable.ofList [1, 2, 3]).size = (Iterable.ofList [1, 2, 3]).items.length
    ∧ fmtCollection "x" (Iterable.ofList [1, 2, 3]) "[" (fun o (n : Nat) => .ok (o ++ Nat.repr n))
        ";" "]" "E" = .ok "x[1;2;3]" := by
  refine ⟨by decide, ?_⟩
  have h := (fmtCollection_equals_join "x" (Iterable.ofList [1, 2, 3]) "[" ";" "]" "E"
    (by decide)).2 Nat.repr
  rw [h]
  decide

/-! ## Rendering only appends -/

theorem appends_write (text : String) : Appends (fun os => .ok (os ++ text)) := by
  intro os
  simp [Except.map]

/-- Writing a fixed text and then running an appending operation appends. -/
theorem appends_after_text (pre : String) (f : OStream → Result) (hf : Appends f) :
    Appends (fun os => f (os ++ pre)) := by
  intro os
  show f (os ++ pre) = (f ("" ++ pre)).map (fun text => os ++ text)
  rw [hf (os ++ pre), hf ("" ++ pre)]
  cases f "" <;> simp [Except.map, String.append_assoc]

/-- Sequencing two appending operations appends. -/
theorem appends_seq (f g : OStream → Result) (hf : Appends f) (hg : Appends g) :
    Appends (fun os => match f os with
      | .error e => (Except.error e : Result)
      | .ok os1 => g os1) := by
  intro os
  show (match f os with
      | .error e => (Except.error e : Result)
      | .ok os1 => g os1) = _
  rw [hf os]
  cases hfe : f "" with
  | error e => simp [Except.map, hfe]
  | ok t =>
    simp only [Except.map, hfe]
    rw [hg (os ++ t), hg t]
    cases g "" <;> simp [Except.map, String.append_assoc]

/-- The loop of `fmtCollection` appends when the callback does. -/
theorem loop_appends {Item : Type} (put : OStream → Item → Result)
    (hput : ∀ x, Appends (fun os => put os x)) (delimiter : String) (xs : List Item) :
    Appends (fmtCollection.loop put delimiter xs) := by
  induction xs with
  | nil =>
    intro os
    simp [fmtCollection.loop, Except.map]
  | cons x xs ih =>
    have hstep : Appends (fun os => fmtCollection.step put delimiter os x) := by
      have h := appends_seq (fun os => put os x) (fun os => .ok (os ++ delimiter))
        (hput x) (appends_write delimiter)
      intro os
      have h1 := h os
      simp only [fmtCollection.step] at h1 ⊢
      exact h1
    have h := appends_seq _ _ hstep ih
    intro os
    have h1 := h os
    simp only [fmtCollection.loop] at h1 ⊢
    exact h1

/-- The function `fmtCollection` appends when the callback does. -/
theorem fmtCollection_appends {Item : Type} (iter : Iterable Item)
    (lBrace : String) (put : OStream → Item → Result)
    (hput : ∀ x, Appends (fun os => put os x)) (delimiter rBrace empty : String) :
    Appends (fun os => fmtCollection os iter lBrace put delimiter rBrace empty) := by
  by_cases hsize : iter.size = 0
  · intro os
    simp [fmtCollection, hsize, Except.map]
  · cases hlast : iter.items.getLast? with
    | none =>
      intro os
      simp [fmtCollection, hsize, hlast, Except.map]
    | some last =>
      have h1 := appends_after_text lBrace _ (loop_appends put hput delimiter iter.items.dropLast)
      have h2 := appends_seq _ _ h1 (hput last)
      have h3 := appends_seq _ _ h2 (appends_write rBrace)
      intro os
      have h := h3 os
      simp only [fmtCollection, hsize, if_false, hlast] at h ⊢
      revert h
      cases fmtCollection.loop put delimiter iter.items.dropLast (os ++ lBrace) with
      | error e =>
        cases fmtCollection.loop put delimiter iter.items.dropLast ("" ++ lBrace) with
        | error e1 => exact id
        | ok o1 => cases put o1 last <;> exact id
      | ok o =>
        cases put o last with
        | error e =>
          cases fmtCollection.loop put delimiter iter.items.dropLast ("" ++ lBrace) with
          | error e1 => exact id
          | ok o1 => cases put o1 last <;> exact id
        | ok o2 =>
          cases fmtCollection.loop put delimiter iter.items.dropLast ("" ++ lBrace) with
          | error e1 => exact id
          | ok o1 => cases put o1 last <;> exact id

theorem appends_error (e : Failure) : Appends (fun _ => .error e) := by
  intro os
  simp [Except.map]

/-- Every instantiated formatter only appends to the stream. -/
theorem run_appends (T : Ty) : ∀ (Args : List Tag) (self : Val T),
    Appends (debug.fmt.run T Args self) := by
  induction T with
  | int t =>
    intro Args self
    cases Args with
    | nil => exact appends_write (ostreamInt t self)
    | cons a as => exact appends_error .illFormed
  | string =>
    intro Args self
    cases Args with
    | nil =>
      intro os
      simp [debug.fmt.run, Except.map, String.append_assoc]
    | cons a as => exact appends_error .illFormed
  | vector T _ =>
    intro Args self
    cases Args with
    | nil =>
      cases hins : ostreamInsert T with
      | none =>
        intro os
        simp [debug.fmt.run, hins, Except.map]
      | some insert =>
        have h := fmtCollection_appends (Iterable.ofList self) "\x7b"
          (fun os item => .ok (os ++ insert item))
          (fun x => appends_write (insert x)) ", " "\x7d" "\x7b\x7d"
        intro os
        have h1 := h os
        simp only [debug.fmt.run, hins] at h1 ⊢
        exact h1
    | cons a as => exact appends_error .illFormed
  | unordered_map K V ihK ihV =>
    intro Args self
    match Args with
    | [] =>
      have h := fmtCollection_appends (Iterable.ofList self) "\x7b"
        (fun os (item : Val K × Val V) =>
          match debug.fmt.run K [] item.1 os with
          | .error e => .error e
          | .ok os1 => debug.fmt.run V [] item.2 (os1 ++ ": "))
        (fun x => appends_seq _ _ (ihK [] x.1)
          (appends_after_text ": " _ (ihV [] x.2))) ", " "\x7d" "\x7b\x7d"
      intro os
      have h1 := h os
      simp only [debug.fmt.run] at h1 ⊢
      exact h1
    | [.Pretty] =>
      have h := fmtCollection_appends (Iterable.ofList self) "\x7b\n"
        (fun os (item : Val K × Val V) =>
          match debug.fmt.run K [] item.1 (os ++ "   ") with
          | .error e => .error e
          | .ok os1 => debug.fmt.run V [] item.2 (os1 ++ ": "))
        (fun x => appends_seq _ _ (appends_after_text "   " _ (ihK [] x.1))
          (appends_after_text ": " _ (ihV [] x.2))) ",\n" "\n\x7d" "\x7b\x7d"
      intro os
      have h1 := h os
      simp only [debug.fmt.run] at h1 ⊢
      exact h1
    | [.other _] => exact appends_error .illFormed
    | .Pretty :: _ :: _ => exact appends_error .illFormed
    | .other _ :: _ :: _ => exact appends_error .illFormed
  | other name =>
    intro Args self
    exact appends_error .illFormed

/-- The call `debug<T, Args...>::fmt(os, self)` only appends. -/
theorem fmt_appends (T : Ty) (Args : List Tag) (self : Val T) :
    Appends (debug.fmt T Args self) := by
  intro os
  unfold debug.fmt
  by_cases h : debug.wellFormed T Args = true
  · simp only [h, if_true]
    exact run_appends T Args self os
  · simp [h, Except.map]

/-- The statement `os << dbg<T, Args...>(value)` only appends. -/
theorem render_appends (T : Ty) (Args : List Tag) (value : Val T) :
    Appends (render T Args value) := by
  intro os
  unfold render dbg
  by_cases h : debug.implements T Args = some true
  · simp only [h, if_true, Debug.insert]
    exact fmt_appends T Args value os
  · simp [h, Except.map]

/-! ## Integers and strings -/

/-- The statement `os << dbg(v)` for an integer writes what `os << v` writes. -/
theorem render_int (t : IntTy) (v : Int) (os : OStream) :
    render (.int t) [] v os = .ok (os ++ ostreamInt t v) := by
  simp [render, dbg, debug.implements, Debug.insert, debug.fmt, debug.wellFormed,
    debug.fmt.run]

/-- The statement `os << dbg(s)` for a string writes the quoted text. -/
theorem render_string (s : String) (os : OStream) :
    render .string [] s os = .ok (os ++ "\"" ++ s ++ "\"") := by
  simp [render, dbg, debug.implements, Debug.insert, debug.fmt, debug.wellFormed,
    debug.fmt.run]

/-- C2. Integer rendering, evaluated on the code.  Every integer type writes
what the stream's own `operator<<` writes for it: one character for
`signed char` and `unsigned char`, the decimal numeral for the other eight
types.  At the representable value 65 of type `signed char` the rendering is
the letter `A` while the decimal digit sequence is `65`; at 49 of type
`unsigned char` it is the character `1`; the sibling type `int` renders 65 as
`65`. -/
theorem integer_rendering_on_character_types :
    (∀ (t : IntTy) (v : Int) (os : OStream),
      render (.int t) [] v os
        = .ok (os ++ (if t.isCharacter then String.singleton (Char.ofNat (v % 256).toNat)
            else decimal v)))
    ∧ IntTy.representable .signedChar 65
    ∧ render (.int .signedChar) [] (65 : Int) "" = .ok "A"
    ∧ decimal 65 = "65"
    ∧ IntTy.representable .unsignedChar 49
    ∧ render (.int .unsignedChar) [] (49 : Int) "" = .ok "1"
    ∧ decimal 49 = "49"
    ∧ render (.int .int) [] (65 : Int) "" = .ok "65" := by
  refine ⟨fun t v os => ?_, by decide, by decide, by decide, by decide, by decide,
    by decide, by decide⟩
  rw [render_int]
  rfl

/-- C3. For every text string `s` (with or without embedded quote characters)
rendering `dbg(s)` appends exactly the double-quote character, `s` unchanged,
and the double-quote character; the appended text has length
`length s + 2`. -/
theorem string_rendering_is_quoted (s : String) (os : OStream) :
    render .string [] s os = .ok (os ++ ("\"" ++ s ++ "\""))
    ∧ ("\"" ++ s ++ "\"").length = s.length + 2 := by
  constructor
  · rw [render_string]
    simp [String.append_assoc]
  · have h : "\"".length = 1 := by decide
    simp only [String.length_append, h]
    omega

/-! ## Ordered sequences -/

/-- A vector whose element type has a capability and a stream insertion
renders as the join of the inserted texts of its elements. -/
theorem render_vector_of_insert (T : Ty) (insert : Val T → String)
    (hins : ostreamInsert T = some insert) (himpl : debug.implements T [] = some true)
    (xs : List (Val T)) (os : OStream) :
    render (.vector T) [] xs os
      = .ok (os ++ joinText "\x7b" ", " "\x7d" "\x7b\x7d" (xs.map insert)) := by
  have h := fmtCollection_append_text os (Iterable.ofList xs) "\x7b" ", " "\x7d" "\x7b\x7d"
    rfl insert
  simp only [render, dbg, debug.implements, himpl, if_true, Debug.insert, debug.fmt,
    debug.wellFormed, hins, Option.isSome_some, decide_True, Bool.and_self,
    debug.fmt.run]
  exact h

/-- A vector whose element type has no stream insertion does not compile. -/
theorem render_vector_no_insert (T : Ty) (hins : ostreamInsert T = none)
    (xs : List (Val T)) (os : OStream) :
    render (.vector T) [] xs os = .error .illFormed := by
  simp only [render, dbg, Debug.insert, debug.fmt, debug.wellFormed, hins]
  cases debug.implements (.vector T) [] with
  | none => simp
  | some b => cases b <;> simp

/-- C4. The ordered-sequence formatter, evaluated on the code.  Its per-item
callback is `os << item`, not `os << dbg(item)`: a sequence of strings is
rendered with the raw text of its elements, without the quotes that the
registered string formatter writes.  The sequence `["a", "b"]` renders as
`{a, b}`, while `dbg("a")` renders as `"a"` and `dbg("b")` as `"b"`. -/
theorem vector_of_strings_is_unquoted :
    (∀ (xs : List String) (os : OStream),
      render (.vector .string) [] xs os = .ok (os ++ joinText "\x7b" ", " "\x7d" "\x7b\x7d" xs))
    ∧ debug.implements .string [] = some true
    ∧ render (.vector .string) [] (["a", "b"] : List String) "" = .ok "\x7ba, b\x7d"
    ∧ render .string [] ("a" : String) "" = .ok "\"a\""
    ∧ render .string [] ("b" : String) "" = .ok "\"b\"" := by
  refine ⟨fun xs os => ?_, by decide, by decide, by decide, by decide⟩
  have h := render_vector_of_insert .string (fun (s : String) => s) rfl rfl xs os
  rw [h]
  exact congrArg (fun ys => Except.ok (os ++ joinText "\x7b" ", " "\x7d" "\x7b\x7d" ys)) (List.map_id xs)

/-- C9. Sequences of sequences, evaluated on the code.  The inner sequence
type is registered, but the callback `os << item` of the outer formatter has
no `operator<<` for a `std::vector`, so no sequence of sequences renders: the
instantiation is rejected at build time.  The inner sequences `[1, 2]` and
`[3]` on their own render as `{1, 2}` and `{3}`. -/
theorem vector_of_vectors_is_ill_formed :
    (∀ (T : Ty) (xs : List (List (Val T))) (os : OStream),
      render (.vector (.vector T)) [] xs os = .error .illFormed)
    ∧ debug.implements (.vector (.vector (.int .int))) [] = some true
    ∧ ostreamInsert (.vector (.int .int)) = none
    ∧ render (.vector (.vector (.int .int))) [] ([[1, 2], [3]] : List (List Int)) ""
        = .error .illFormed
    ∧ render (.vector (.int .int)) [] ([1, 2] : List Int) "" = .ok "\x7b1, 2\x7d"
    ∧ render (.vector (.int .int)) [] ([3] : List Int) "" = .ok "\x7b3\x7d" := by
  refine ⟨fun T xs os => ?_, by decide, rfl, by decide, by decide, by decide⟩
  exact render_vector_no_insert (.vector T) rfl xs os

/-! ## Mappings -/

/-- A successful `os << dbg(value)` means that the capability is registered,
the formatter compiles, and the formatter run appends the same text to
every stream. -/
theorem run_of_render (T : Ty) (Args : List Tag) (value : Val T) (text : String)
    (h : render T Args value "" = .ok text) :
    debug.implements T Args = some true ∧ debug.wellFormed T Args = true
    ∧ ∀ os : OStream, debug.fmt.run T Args value os = .ok (os ++ text) := by
  unfold render dbg at h
  by_cases himpl : debug.implements T Args = some true
  · simp only [himpl, if_true, Debug.insert, debug.fmt] at h
    by_cases hwf : debug.wellFormed T Args = true
    · simp only [hwf, if_true] at h
      refine ⟨himpl, hwf, fun os => ?_⟩
      rw [run_appends T Args value os, h]
      rfl
    · simp [hwf] at h
  · simp [himpl] at h

/-- The default mapping formatter runs `fmtCollection` with a callback that
appends `<key>: <value>`. -/
theorem run_map_default (K V : Ty) (rK : Val K → String) (rV : Val V → String)
    (hK : ∀ k, render K [] k "" = .ok (rK k)) (hV : ∀ v, render V [] v "" = .ok (rV v))
    (self : List (Val K × Val V)) (os : OStream) :
    debug.fmt.run (.unordered_map K V) [] self os
      = fmtCollection os (Iterable.ofList self) "\x7b"
          (fun o item => .ok (o ++ (rK item.1 ++ ": " ++ rV item.2))) ", " "\x7d" "\x7b\x7d" := by
  simp only [debug.fmt.run]
  congr 1
  funext o item
  rw [(run_of_render K [] item.1 _ (hK item.1)).2.2 o]
  simp only
  rw [(run_of_render V [] item.2 _ (hV item.2)).2.2]
  simp [String.append_assoc]

/-- The `Pretty` mapping formatter runs `fmtCollection` with a callback that
appends three spaces and `<key>: <value>`. -/
theorem run_map_pretty (K V : Ty) (rK : Val K → String) (rV : Val V → String)
    (hK : ∀ k, render K [] k "" = .ok (rK k)) (hV : ∀ v, render V [] v "" = .ok (rV v))
    (self : List (Val K × Val V)) (os : OStream) :
    debug.fmt.run (.unordered_map K V) [.Pretty] self os
      = fmtCollection os (Iterable.ofList self) "\x7b\n"
          (fun o item => .ok (o ++ ("   " ++ rK item.1 ++ ": " ++ rV item.2)))
          ",\n" "\n\x7d" "\x7b\x7d" := by
  simp only [debug.fmt.run]
  congr 1
  funext o item
  rw [(run_of_render K [] item.1 _ (hK item.1)).2.2 (o ++ "   ")]
  simp only
  rw [(run_of_render V [] item.2 _ (hV item.2)).2.2]
  simp [String.append_assoc]

/-- C5. Default rendering of a mapping with at least one entry.  When keys
and values render through their registered default formatters as `rK k` and
`rV v`, the mapping with entries `e_0, ..., e_{n-1}` in iteration order
renders as `{` ++ `t_0` ++ `, ` ++ `t_1` ++ ... ++ `, ` ++ `t_{n-1}` ++ `}`
with `t_i = rK k_i ++ ": " ++ rV v_i`, and no trailing comma. -/
theorem map_default_rendering (K V : Ty) (rK : Val K → String) (rV : Val V → String)
    (hK : ∀ k, render K [] k "" = .ok (rK k)) (hV : ∀ v, render V [] v "" = .ok (rV v))
    (entry : Val K × Val V) (rest : List (Val K × Val V)) (os : OStream) :
    render (.unordered_map K V) [] (entry :: rest) os
      = .ok (os ++ ("\x7b" ++ (rK entry.1 ++ ": " ++ rV entry.2)
          ++ joinTail ", " (rest.map (fun e => rK e.1 ++ ": " ++ rV e.2)) ++ "\x7d")) := by
  obtain ⟨hKi, hKw, _⟩ := run_of_render K [] entry.1 _ (hK entry.1)
  obtain ⟨hVi, hVw, _⟩ := run_of_render V [] entry.2 _ (hV entry.2)
  have h := fmtCollection_append_text os (Iterable.ofList (entry :: rest)) "\x7b" ", " "\x7d"
    "\x7b\x7d" rfl (fun e => rK e.1 ++ ": " ++ rV e.2)
  simp only [render, dbg, debug.implements, hKi, hVi, and_self, if_true, Debug.insert,
    debug.fmt, debug.wellFormed, hKw, hVw, decide_True, Bool.and_self]
  rw [run_map_default K V rK rV hK hV]
  exact h

/-- Witness for C5: the single-entry mapping from the integer 1 to the
string `a` renders exactly as `{1: "a"}`. -/
theorem map_default_rendering_witness :
    render (.unordered_map (.int .int) .string) [] ([((1 : Int), "a")] : List (Int × String)) ""
      = .ok "\x7b1: \"a\"\x7d" := by
  have h := map_default_rendering (.int .int) .string decimal
    (fun (s : String) => "\"" ++ s ++ "\"")
    (fun k => by rw [render_int]; rfl)
    (fun v => by rw [render_string]; simp [String.append_assoc])
    (((1 : Int), "a") : Int × String) [] ""
  rw [h]
  decide

/-- C6. `Pretty` rendering of a mapping with at least one entry.  When keys
and values render through their registered default formatters as `rK k` and
`rV v`, the mapping with entries `e_0, ..., e_{n-1}` in iteration order
renders under the `Pretty` tag as `{\n` ++ `p_0` ++ `,\n` ++ ... ++ `,\n` ++
`p_{n-1}` ++ `\n}` with `p_i` = three spaces ++ `rK k_i ++ ": " ++ rV v_i`,
and no trailing comma. -/
theorem map_pretty_rendering (K V : Ty) (rK : Val K → String) (rV : Val V → String)
    (hK : ∀ k, render K [] k "" = .ok (rK k)) (hV : ∀ v, render V [] v "" = .ok (rV v))
    (entry : Val K × Val V) (rest : List (Val K × Val V)) (os : OStream) :
    render (.unordered_map K V) [.Pretty] (entry :: rest) os
      = .ok (os ++ ("\x7b\n" ++ ("   " ++ rK entry.1 ++ ": " ++ rV entry.2)
          ++ joinTail ",\n" (rest.map (fun e => "   " ++ rK e.1 ++ ": " ++ rV e.2))
          ++ "\n\x7d")) := by
  obtain ⟨hKi, hKw, _⟩ := run_of_render K [] entry.1 _ (hK entry.1)
  obtain ⟨hVi, hVw, _⟩ := run_of_render V [] entry.2 _ (hV entry.2)
  have h := fmtCollection_append_text os (Iterable.ofList (entry :: rest)) "\x7b\n" ",\n"
    "\n\x7d" "\x7b\x7d" rfl (fun e => "   " ++ rK e.1 ++ ": " ++ rV e.2)
  simp only [render, dbg, debug.implements, hKi, hVi, and_self, if_true, Debug.insert,
    debug.fmt, debug.wellFormed, hKw, hVw, decide_True, Bool.and_self]
  rw [run_map_pretty K V rK rV hK hV]
  exact h

/-- Witness for C6: the single-entry mapping from the integer 1 to the
string `a` renders under `Pretty` as the three lines `{`, `   1: "a"`, `}`. -/
theorem map_pretty_rendering_witness :
    render (.unordered_map (.int .int) .string) [.Pretty]
        ([((1 : Int), "a")] : List (Int × String)) ""
      = .ok "\x7b\n   1: \"a\"\n\x7d" := by
  have h := map_pretty_rendering (.int .int) .string decimal
    (fun (s : String) => "\"" ++ s ++ "\"")
    (fun k => by rw [render_int]; rfl)
    (fun v => by rw [render_string]; simp [String.append_assoc])
    (((1 : Int), "a") : Int × String) [] ""
  rw [h]
  decide

/-! ## Empty collections -/

/-- C7. Empty collections, evaluated on the code.  The empty sequence renders
as `{}` exactly for the element types that have a capability and a stream
insertion, and is rejected at build time for every other element type; the
empty mapping renders as `{}` (without a newline, under both tag lists)
exactly when the mapping formatter compiles.  The element type
`std::vector<int>` is registered, yet the empty sequence of such sequences
does not render, and neither does the empty mapping from `int` to sequences
of sequences of `int`. -/
theorem empty_collection_rendering :
    (∀ (T : Ty) (os : OStream),
      render (.vector T) [] [] os
        = if debug.implements T [] = some true ∧ (ostreamInsert T).isSome = true
          then .ok (os ++ "\x7b\x7d") else .error .illFormed)
    ∧ (∀ (K V : Ty) (os : OStream),
      render (.unordered_map K V) [] [] os
        = if debug.implements (.unordered_map K V) [] = some true
            ∧ debug.wellFormed (.unordered_map K V) [] = true
          then .ok (os ++ "\x7b\x7d") else .error .illFormed)
    ∧ (∀ (K V : Ty) (os : OStream),
      render (.unordered_map K V) [.Pretty] [] os
        = if debug.implements (.unordered_map K V) [.Pretty] = some true
            ∧ debug.wellFormed (.unordered_map K V) [.Pretty] = true
          then .ok (os ++ "\x7b\x7d") else .error .illFormed)
    ∧ '\n' ∉ "\x7b\x7d".data
    ∧ debug.implements (.vector (.int .int)) [] = some true
    ∧ render (.vector (.vector (.int .int))) [] ([] : List (List Int)) ""
        = .error .illFormed
    ∧ debug.implements (.vector (.vector (.int .int))) [] = some true
    ∧ render (.unordered_map (.int .int) (.vector (.vector (.int .int)))) []
        ([] : List (Int × List (List Int))) "" = .error .illFormed
    ∧ render (.unordered_map (.int .int) (.vector (.vector (.int .int)))) [.Pretty]
        ([] : List (Int × List (List Int))) "" = .error .illFormed
    ∧ render (.vector (.int .int)) [] ([] : List Int) "" = .ok "\x7b\x7d"
    ∧ render (.unordered_map (.int .int) .string) [] ([] : List (Int × String)) "" = .ok "\x7b\x7d"
    ∧ render (.unordered_map (.int .int) .string) [.Pretty] ([] : List (Int × String)) ""
        = .ok "\x7b\x7d" := by
  refine ⟨fun T os => ?_, fun K V os => ?_, fun K V os => ?_, by decide, by decide,
    by decide, by decide, by decide, by decide, by decide, by decide, by decide⟩
  · by_cases himpl : debug.implements T [] = some true
    · cases hins : ostreamInsert T with
      | none => simp [render_vector_no_insert T hins, himpl]
      | some insert =>
        rw [render_vector_of_insert T insert hins himpl]
        simp [himpl, joinText]
    · simp [render, dbg, debug.implements, himpl]
  · by_cases himpl : debug.implements (.unordered_map K V) [] = some true
    · by_cases hwf : debug.wellFormed (.unordered_map K V) [] = true
      · simp [render, dbg, himpl, Debug.insert, debug.fmt, hwf, debug.fmt.run,
          fmtCollection, Iterable.ofList]
      · simp [render, dbg, himpl, Debug.insert, debug.fmt, hwf]
    · simp [render, dbg, himpl]
  · by_cases himpl : debug.implements (.unordered_map K V) [.Pretty] = some true
    · by_cases hwf : debug.wellFormed (.unordered_map K V) [.Pretty] = true
      · simp [render, dbg, himpl, Debug.insert, debug.fmt, hwf, debug.fmt.run,
          fmtCollection, Iterable.ofList]
      · simp [render, dbg, himpl, Debug.insert, debug.fmt, hwf]
    · simp [render, dbg, himpl]

/-! ## No trailing delimiter -/

theorem digitChar_isDigit (d : Nat) (h : d < 10) : (Nat.digitChar d).isDigit = true := by
  interval_cases d <;> decide

/-- Every character of a decimal numeral is a digit. -/
theorem toDigitsCore_isDigit (fuel : Nat) : ∀ (n : Nat) (acc : List Char),
    (∀ c ∈ acc, c.isDigit = true) →
    ∀ c ∈ Nat.toDigitsCore 10 fuel n acc, c.isDigit = true := by
  induction fuel with
  | zero =>
    intro n acc hacc c hc
    exact hacc c hc
  | succ fuel ih =>
    intro n acc hacc c hc
    have hd : ∀ c ∈ Nat.digitChar (n % 10) :: acc, c.isDigit = true := by
      intro c hc
      rcases List.mem_cons.mp hc with h | h
      · rw [h]
        exact digitChar_isDigit _ (Nat.mod_lt n (by decide))
      · exact hacc c h
    simp only [Nat.toDigitsCore] at hc
    split at hc
    · exact hd c hc
    · exact ih _ _ hd c hc

/-- A decimal numeral has at least one character. -/
theorem toDigitsCore_ne_nil (fuel n : Nat) (acc : List Char) (hacc : acc ≠ []) :
    Nat.toDigitsCore 10 fuel n acc ≠ [] := by
  induction fuel generalizing n acc with
  | zero => exact hacc
  | succ fuel ih =>
    simp only [Nat.toDigitsCore]
    split
    · exact List.cons_ne_nil _ _
    · exact ih _ _ (List.cons_ne_nil _ _)

theorem toDigits_ne_nil (n : Nat) : Nat.toDigits 10 n ≠ [] := by
  unfold Nat.toDigits
  simp only [Nat.toDigitsCore]
  split
  · exact List.cons_ne_nil _ _
  · exact toDigitsCore_ne_nil _ _ _ (List.cons_ne_nil _ _)

/-- The decimal text of an integer contains no comma. -/
theorem decimal_no_comma (v : Int) : ∀ c ∈ (decimal v).data, c ≠ ',' := by
  have hdig : ∀ c ∈ (decimalNat v.natAbs).data, c ≠ ',' := by
    intro c hc hcomma
    have h := toDigitsCore_isDigit (v.natAbs + 1) v.natAbs [] (by simp) c hc
    rw [hcomma] at h
    exact absurd h (by decide)
  intro c hc
  unfold decimal at hc
  split at hc
  · rw [String.data_append] at hc
    rcases List.mem_append.mp hc with h | h
    · have hdash : c = '-' := by simpa using h
      rw [hdash]
      decide
    · exact hdig c h
  · exact hdig c hc

theorem decimal_ne_empty (v : Int) : (decimal v).data ≠ [] := by
  have hdig : (decimalNat v.natAbs).data ≠ [] := toDigits_ne_nil v.natAbs
  unfold decimal
  split
  · rw [String.data_append]
    intro h
    exact hdig (List.append_eq_nil.mp h).2
  · exact hdig

theorem quiet_of_no_comma (text : List Char) (h : ∀ c ∈ text, c ≠ ',') : Quiet text := by
  intro rest _
  induction text with
  | nil => rfl
  | cons c cs ih =>
    have hc : (',' == c) = false :=
      beq_eq_false_iff_ne.mpr (Ne.symm (h c (List.mem_cons_self c cs)))
    have ih1 := ih (fun d hd => h d (List.mem_cons_of_mem c hd))
    show (if startsWith [',', ' '] (c :: (cs ++ rest)) then 1 else 0)
      + occurrences [',', ' '] (cs ++ rest) = occurrences [',', ' '] rest
    rw [ih1]
    simp [startsWith, hc]

theorem quiet_singleton (c : Char) : Quiet [c] := by
  intro rest hrest
  cases rest with
  | nil => simp [occurrences, startsWith]
  | cons d ds =>
    have hne : d ≠ ' ' := fun h => hrest (by rw [h]; rfl)
    have hd : (' ' == d) = false := beq_eq_false_iff_ne.mpr (Ne.symm hne)
    show (if startsWith [',', ' '] (c :: d :: ds) then 1 else 0)
      + occurrences [',', ' '] (d :: ds) = occurrences [',', ' '] (d :: ds)
    simp [startsWith, hd]

/-- The text written by `os << v` for an integer is quiet and not empty. -/
theorem ostreamInt_quiet (t : IntTy) (v : Int) :
    Quiet (ostreamInt t v).data ∧ (ostreamInt t v).data ≠ [] := by
  unfold ostreamInt
  split
  · exact ⟨quiet_singleton _, by simp⟩
  · exact ⟨quiet_of_no_comma _ (decimal_no_comma v), decimal_ne_empty v⟩

theorem occurrences_delimiter (text : List Char) :
    occurrences [',', ' '] (',' :: ' ' :: text) = 1 + occurrences [',', ' '] text := by
  show (if startsWith [',', ' '] (',' :: ' ' :: text) then 1 else 0)
    + ((if startsWith [',', ' '] (' ' :: text) then 1 else 0)
      + occurrences [',', ' '] text) = 1 + occurrences [',', ' '] text
  have h1 : startsWith [',', ' '] (',' :: ' ' :: text) = true := by
    simp [startsWith]
  have h2 : startsWith [',', ' '] (' ' :: text) = false := by
    have hc : (',' == ' ') = false := by decide
    simp [startsWith, hc]
  rw [h1, h2]
  simp

theorem occurrences_open_brace (text : List Char) :
    occurrences [',', ' '] ('{' :: text) = occurrences [',', ' '] text := by
  show (if startsWith [',', ' '] ('{' :: text) then 1 else 0)
    + occurrences [',', ' '] text = occurrences [',', ' '] text
  have h1 : startsWith [',', ' '] ('{' :: text) = false := by
    have hc : (',' == '{') = false := by decide
    simp [startsWith, hc]
  rw [h1]
  simp

/-- After the first item, a join of `n` quiet texts closed by `}` contains
`n` occurrences of the delimiter, and does not start with a space. -/
theorem occurrences_joinTail (ts : List String) (hq : ∀ t ∈ ts, Quiet t.data) :
    occurrences [',', ' '] ((joinTail ", " ts).data ++ ['}']) = ts.length
    ∧ ((joinTail ", " ts).data ++ ['}']).head? ≠ some ' ' := by
  induction ts with
  | nil =>
    constructor
    · decide
    · decide
  | cons t ts ih =>
    obtain ⟨hocc, hhead⟩ := ih (fun u hu => hq u (List.mem_cons_of_mem t hu))
    have hdelim : (", " : String).data = [',', ' '] := rfl
    have ht := hq t (List.mem_cons_self t ts) _ hhead
    have e : (joinTail ", " (t :: ts)).data ++ ['}']
        = ',' :: ' ' :: (t.data ++ ((joinTail ", " ts).data ++ ['}'])) := by
      simp only [joinTail, String.data_append, hdelim, List.cons_append, List.nil_append,
        List.append_assoc]
    rw [e]
    constructor
    · rw [occurrences_delimiter, ht, hocc, List.length_cons]
      omega
    · simp

/-- The last item text of a non-empty join stands right before the closing
brace. -/
theorem joinText_last {Item : Type} (lBrace delimiter rBrace empty : String)
    (r : Item → String) (x : Item) (xs : List Item) :
    ∃ pre : String, joinText lBrace delimiter rBrace empty ((x :: xs).map r)
      = pre ++ r ((x :: xs).getLast (List.cons_ne_nil x xs)) ++ rBrace := by
  have htail : ∀ (ys : List Item) (y : Item), ∃ pre : String,
      joinTail delimiter ((y :: ys).map r)
        = pre ++ r ((y :: ys).getLast (List.cons_ne_nil y ys)) := by
    intro ys
    induction ys with
    | nil =>
      intro y
      exact ⟨delimiter, by simp [joinTail]⟩
    | cons z zs ih =>
      intro y
      obtain ⟨pre, hpre⟩ := ih z
      refine ⟨delimiter ++ r y ++ pre, ?_⟩
      rw [List.getLast_cons_cons]
      simp only [List.map_cons, joinTail] at hpre ⊢
      rw [hpre]
      simp [String.append_assoc]
  cases xs with
  | nil => exact ⟨lBrace, by simp [joinText, joinTail]⟩
  | cons y ys =>
    obtain ⟨pre, hpre⟩ := htail ys y
    refine ⟨lBrace ++ r x ++ pre, ?_⟩
    rw [List.getLast_cons_cons]
    simp only [List.map_cons, joinText] at hpre ⊢
    rw [hpre]
    simp [String.append_assoc]

/-- C8. No trailing delimiter.  A sequence of `n >= 1` integers
`v_0, ..., v_{n-1}` of any of the ten integer types renders as
`{` ++ `r v_0` ++ `, ` ++ ... ++ `, ` ++ `r v_{n-1}` ++ `}`, where `r v` is the
text the integer renders as; the rendering contains exactly `n - 1`
occurrences of the delimiter `, `; and the closing brace directly follows
the (non-empty) text of the last integer. -/
theorem vector_of_integers_no_trailing_delimiter (t : IntTy) (v : Int) (vs : List Int)
    (os : OStream) :
    render (.vector (.int t)) [] (v :: vs) os
      = .ok (os ++ joinText "\x7b" ", " "\x7d" "\x7b\x7d" ((v :: vs).map (ostreamInt t)))
    ∧ joinText "\x7b" ", " "\x7d" "\x7b\x7d" ((v :: vs).map (ostreamInt t))
      = "\x7b" ++ ostreamInt t v ++ joinTail ", " (vs.map (ostreamInt t)) ++ "\x7d"
    ∧ (∀ u : Int, render (.int t) [] u "" = .ok (ostreamInt t u))
    ∧ occurrences ", ".data (joinText "\x7b" ", " "\x7d" "\x7b\x7d" ((v :: vs).map (ostreamInt t))).data
      = (v :: vs).length - 1
    ∧ (∃ pre : String, joinText "\x7b" ", " "\x7d" "\x7b\x7d" ((v :: vs).map (ostreamInt t))
        = pre ++ ostreamInt t ((v :: vs).getLast (List.cons_ne_nil v vs)) ++ "\x7d")
    ∧ ostreamInt t ((v :: vs).getLast (List.cons_ne_nil v vs)) ≠ "" := by
  refine ⟨render_vector_of_insert (.int t) (ostreamInt t) rfl rfl (v :: vs) os, rfl,
    fun u => ?_, ?_, joinText_last "\x7b" ", " "\x7d" "\x7b\x7d" (ostreamInt t) v vs, ?_⟩
  · rw [render_int]
    simp
  · obtain ⟨hocc, hhead⟩ := occurrences_joinTail (vs.map (ostreamInt t)) (by
      intro u hu
      obtain ⟨w, _, hw⟩ := List.mem_map.mp hu
      rw [← hw]
      exact (ostreamInt_quiet t w).1)
    have hbrace : ("\x7b" : String).data = ['{'] := rfl
    have hclose : ("\x7d" : String).data = ['}'] := rfl
    have hdelim : (", " : String).data = [',', ' '] := rfl
    have hq := (ostreamInt_quiet t v).1 _ hhead
    have e : (joinText "\x7b" ", " "\x7d" "\x7b\x7d" ((v :: vs).map (ostreamInt t))).data
        = '{' :: ((ostreamInt t v).data
            ++ ((joinTail ", " (vs.map (ostreamInt t))).data ++ ['}'])) := by
      simp only [List.map_cons, joinText, String.data_append, hbrace, hclose,
        List.cons_append, List.nil_append, List.append_assoc]
    rw [e, hdelim, occurrences_open_brace, hq, hocc, List.length_map, List.length_cons]
    omega
  · intro h
    exact (ostreamInt_quiet t _).2 (by rw [h])

/-! ## Determinism -/

/-- On a stream in its initial formatting state an integer formatter appends
what `ostreamInt` describes and leaves the formatting state initial. -/
theorem IMPL_DEBUG_fmt_initial (t : IntTy) (v : Int) (content : String) :
    IMPL_DEBUG.fmt t ⟨content, FormatState.initial⟩ v
      = ⟨content ++ ostreamInt t v, FormatState.initial⟩ := by
  have hpad : ∀ body : String, padLeft 0 body = body := by
    intro body
    simp [padLeft]
  simp only [IMPL_DEBUG.fmt, ostreamIntOn, FormatState.initial, hpad, ostreamInt, numeral]

/-- C10, as the claim states it, fails: the rendered text is not a function
of the value and the tags only.  On a stream whose field width is 5 the
`int` 42 is rendered as `   42` and, rendered again right after on the same
stream, as `42`.  On two streams with the same (empty) prior content, one in
hexadecimal and one in decimal base, the `int` 255 is rendered as `ff` and
as `255`.  Two mappings with the same entries in another iteration order are
rendered as `{1: "a", 2: "b"}` and as `{2: "b", 1: "a"}`. -/
theorem rendering_depends_on_stream_state_and_order :
    IMPL_DEBUG.fmt .int ⟨"", ⟨5, .dec⟩⟩ 42 = ⟨"   42", ⟨0, .dec⟩⟩
    ∧ IMPL_DEBUG.fmt .int (IMPL_DEBUG.fmt .int ⟨"", ⟨5, .dec⟩⟩ 42) 42
        = ⟨"   4242", ⟨0, .dec⟩⟩
    ∧ IMPL_DEBUG.fmt .int ⟨"", ⟨0, .hex⟩⟩ 255 = ⟨"ff", ⟨0, .hex⟩⟩
    ∧ IMPL_DEBUG.fmt .int ⟨"", ⟨0, .dec⟩⟩ 255 = ⟨"255", ⟨0, .dec⟩⟩
    ∧ ¬ (∃ text : Int → String, ∀ (os : FormattedStream) (v : Int),
          (IMPL_DEBUG.fmt .int os v).content = os.content ++ text v)
    ∧ List.Perm ([(1, "a"), (2, "b")] : List (Int × String)) [(2, "b"), (1, "a")]
    ∧ render (.unordered_map (.int .int) .string) []
        ([(1, "a"), (2, "b")] : List (Int × String)) "" = .ok "\x7b1: \"a\", 2: \"b\"\x7d"
    ∧ render (.unordered_map (.int .int) .string) []
        ([(2, "b"), (1, "a")] : List (Int × String)) "" = .ok "\x7b2: \"b\", 1: \"a\"\x7d" := by
  refine ⟨by decide, by decide, by decide, by decide, ?_, List.Perm.swap _ _ _, by decide,
    by decide⟩
  rintro ⟨text, htext⟩
  have h1 := htext ⟨"", ⟨0, .hex⟩⟩ 255
  have h2 := htext ⟨"", ⟨0, .dec⟩⟩ 255
  have e1 : (IMPL_DEBUG.fmt .int ⟨"", ⟨0, .hex⟩⟩ 255).content = "ff" := by decide
  have e2 : (IMPL_DEBUG.fmt .int ⟨"", ⟨0, .dec⟩⟩ 255).content = "255" := by decide
  rw [e1] at h1
  rw [e2] at h2
  rw [← h2] at h1
  exact absurd h1 (by decide)

/-- C10, amended.  Rendering is deterministic on streams in their initial
formatting state, for values taken with their iteration order.  For every
type, tag list and value (a mapping being its entries in iteration order)
there is one outcome, a text or a failure, fixed by the type, the tags and
the value alone, such that rendering onto any stream appends exactly that
text (or fails that way), whatever the stream held before; rendering the
value twice in a row appends the same text both times; and an integer
formatter started in the initial formatting state appends that text and
leaves the formatting state initial. -/
theorem rendering_is_deterministic (T : Ty) (Args : List Tag) (value : Val T) :
    (∃ outcome : Except Failure String,
      (∀ os : OStream, render T Args value os = outcome.map (fun text => os ++ text))
      ∧ (∀ os : OStream,
          (match render T Args value os with
            | .error e => (Except.error e : Result)
            | .ok os1 => render T Args value os1)
          = outcome.map (fun text => os ++ text ++ text)))
    ∧ (∀ (t : IntTy) (v : Int) (content : String),
        IMPL_DEBUG.fmt t ⟨content, FormatState.initial⟩ v
          = ⟨content ++ ostreamInt t v, FormatState.initial⟩
        ∧ render (.int t) [] v content = .ok (content ++ ostreamInt t v)
        ∧ IMPL_DEBUG.fmt t (IMPL_DEBUG.fmt t ⟨content, FormatState.initial⟩ v) v
          = ⟨content ++ ostreamInt t v ++ ostreamInt t v, FormatState.initial⟩) := by
  constructor
  · refine ⟨render T Args value "", render_appends T Args value, fun os => ?_⟩
    rw [render_appends T Args value os]
    cases h : render T Args value "" with
    | error e => simp [Except.map]
    | ok text =>
      simp only [Except.map]
      rw [render_appends T Args value (os ++ text), h]
      rfl
  · intro t v content
    refine ⟨IMPL_DEBUG_fmt_initial t v content, render_int t v content, ?_⟩
    rw [IMPL_DEBUG_fmt_initial, IMPL_DEBUG_fmt_initial]

/-! ## Capability resolution -/

/-- A handle `Debug<T, Args...>` exists exactly when the capability resolves
with `implements = true`, and a rendering needs a handle. -/
theorem render_illFormed_of_not_implements (T : Ty) (Args : List Tag)
    (h : debug.implements T Args ≠ some true) (value : Val T) (os : OStream) :
    dbg T Args value = .error .illFormed ∧ render T Args value os = .error .illFormed := by
  simp [render, dbg, h]

/-- C11. A container capability resolves exactly when its element types have
a default capability.  For a sequence of `T`: `implements` is `true` exactly
when `T` has a default capability; for a mapping from `K` to `V`, under the
empty tag list and under `Pretty`: exactly when both `K` and `V` have one.
Otherwise the class fails its `static_assert` (no `implements` at all), no
handle can be constructed, and no value is rendered. -/
theorem container_capability_requires_elements (T K V : Ty) :
    (debug.implements (.vector T) [] = some true ↔ debug.implements T [] = some true)
    ∧ (debug.implements (.unordered_map K V) [] = some true
        ↔ debug.implements K [] = some true ∧ debug.implements V [] = some true)
    ∧ (debug.implements (.unordered_map K V) [.Pretty] = some true
        ↔ debug.implements K [] = some true ∧ debug.implements V [] = some true)
    ∧ (debug.implements T [] ≠ some true →
        debug.implements (.vector T) [] = none
        ∧ ∀ (value : List (Val T)) (os : OStream),
            dbg (.vector T) [] value = .error .illFormed
            ∧ render (.vector T) [] value os = .error .illFormed)
    ∧ (¬ (debug.implements K [] = some true ∧ debug.implements V [] = some true) →
        debug.implements (.unordered_map K V) [] = none
        ∧ debug.implements (.unordered_map K V) [.Pretty] = none
        ∧ ∀ (value : List (Val K × Val V)) (os : OStream),
            dbg (.unordered_map K V) [] value = .error .illFormed
            ∧ render (.unordered_map K V) [] value os = .error .illFormed
            ∧ dbg (.unordered_map K V) [.Pretty] value = .error .illFormed
            ∧ render (.unordered_map K V) [.Pretty] value os = .error .illFormed)
    ∧ debug.implements (.other "double") [] = some false
    ∧ render (.vector (.other "double")) [] ([()] : List Unit) "" = .error .illFormed
    ∧ render (.unordered_map (.int .int) (.other "double")) [.Pretty]
        ([(1, ())] : List (Int × Unit)) "" = .error .illFormed
    ∧ debug.implements (.vector (.int .int)) [] = some true := by
  refine ⟨?_, ?_, ?_, ?_, ?_, by decide, by decide, by decide, by decide⟩
  · by_cases h : debug.implements T [] = some true <;> simp [debug.implements, h]
  · by_cases h : debug.implements K [] = some true ∧ debug.implements V [] = some true
      <;> simp [debug.implements, h]
  · by_cases h : debug.implements K [] = some true ∧ debug.implements V [] = some true
      <;> simp [debug.implements, h]
  · intro h
    have hv : debug.implements (.vector T) [] = none := by simp [debug.implements, h]
    refine ⟨hv, fun value os => ?_⟩
    exact render_illFormed_of_not_implements (.vector T) [] (by simp [hv]) value os
  · intro h
    have h1 : debug.implements (.unordered_map K V) [] = none := by
      simp [debug.implements, h]
    have h2 : debug.implements (.unordered_map K V) [.Pretty] = none := by
      simp [debug.implements, h]
    refine ⟨h1, h2, fun value os => ?_⟩
    have r1 := render_illFormed_of_not_implements (.unordered_map K V) [] (by simp [h1]) value os
    have r2 := render_illFormed_of_not_implements (.unordered_map K V) [.Pretty]
      (by simp [h2]) value os
    exact ⟨r1.1, r1.2, r2.1, r2.2⟩

/-- Outside the registered (type, tag list) pairs the primary template is
selected: `implements` is `false`. -/
theorem implements_unregistered :
    (∀ (t : IntTy) (a : Tag) (as : List Tag), debug.implements (.int t) (a :: as) = some false)
    ∧ (∀ (a : Tag) (as : List Tag), debug.implements .string (a :: as) = some false)
    ∧ (∀ (T : Ty) (a : Tag) (as : List Tag),
        debug.implements (.vector T) (a :: as) = some false)
    ∧ (∀ (name : String) (Args : List Tag), debug.implements (.other name) Args = some false)
    ∧ (∀ (K V : Ty) (name : String),
        debug.implements (.unordered_map K V) [.other name] = some false)
    ∧ (∀ (K V : Ty) (a b : Tag) (as : List Tag),
        debug.implements (.unordered_map K V) (a :: b :: as) = some false) := by
  refine ⟨fun t a as => rfl, fun a as => rfl, fun T a as => rfl, fun name Args => ?_,
    fun K V name => rfl, fun K V a b as => ?_⟩
  · cases Args <;> rfl
  · cases a <;> rfl

/-- A pair whose `implements` is `false` has no handle and no rendering. -/
theorem render_illFormed_of_implements_false (T : Ty) (Args : List Tag)
    (h : debug.implements T Args = some false) (value : Val T) (os : OStream) :
    dbg T Args value = .error .illFormed ∧ render T Args value os = .error .illFormed :=
  render_illFormed_of_not_implements T Args (by simp [h]) value os

/-- C12. Capability resolution is an exact match on the type and the tag
list, without fallback.  Integers, strings and sequences resolve to
`implements = false` under every non-empty tag list, types without a
specialisation under every tag list, and mappings under every tag list
other than the empty one and `Pretty`; for each of these no handle can be
constructed and nothing is rendered, although the default formatter of the
same type exists.  A mapping resolves alike under the empty tag list and
under `Pretty`. -/
theorem capability_resolution_is_exact :
    (∀ (t : IntTy) (a : Tag) (as : List Tag) (v : Int) (os : OStream),
      debug.implements (.int t) (a :: as) = some false
      ∧ dbg (.int t) (a :: as) v = .error .illFormed
      ∧ render (.int t) (a :: as) v os = .error .illFormed)
    ∧ (∀ (a : Tag) (as : List Tag) (s : String) (os : OStream),
      debug.implements .string (a :: as) = some false
      ∧ dbg .string (a :: as) s = .error .illFormed
      ∧ render .string (a :: as) s os = .error .illFormed)
    ∧ (∀ (T : Ty) (a : Tag) (as : List Tag) (xs : List (Val T)) (os : OStream),
      debug.implements (.vector T) (a :: as) = some false
      ∧ dbg (.vector T) (a :: as) xs = .error .illFormed
      ∧ render (.vector T) (a :: as) xs os = .error .illFormed)
    ∧ (∀ (name : String) (Args : List Tag) (os : OStream),
      debug.implements (.other name) Args = some false
      ∧ dbg (.other name) Args () = .error .illFormed
      ∧ render (.other name) Args () os = .error .illFormed)
    ∧ (∀ (K V : Ty) (name : String) (m : List (Val K × Val V)) (os : OStream),
      debug.implements (.unordered_map K V) [.other name] = some false
      ∧ render (.unordered_map K V) [.other name] m os = .error .illFormed)
    ∧ (∀ (K V : Ty) (a b : Tag) (as : List Tag) (m : List (Val K × Val V)) (os : OStream),
      debug.implements (.unordered_map K V) (a :: b :: as) = some false
      ∧ render (.unordered_map K V) (a :: b :: as) m os = .error .illFormed)
    ∧ (∀ K V : Ty, debug.implements (.unordered_map K V) [.Pretty]
        = debug.implements (.unordered_map K V) [])
    ∧ debug.implements (.unordered_map (.int .int) .string) [] = some true
    ∧ debug.implements (.unordered_map (.int .int) .string) [.Pretty] = some true
    ∧ render (.vector (.int .int)) [] ([1] : List Int) "" = .ok "\x7b1\x7d"
    ∧ render (.vector (.int .int)) [.Pretty] ([1] : List Int) "" = .error .illFormed
    ∧ render (.int .int) [] (1 : Int) "" = .ok "1"
    ∧ render (.int .int) [.Pretty] (1 : Int) "" = .error .illFormed
    ∧ render .string [] ("a" : String) "" = .ok "\"a\""
    ∧ render .string [.Pretty] ("a" : String) "" = .error .illFormed := by
  obtain ⟨hint, hstr, hvec, hother, hmap1, hmap2⟩ := implements_unregistered
  refine ⟨fun t a as v os => ?_, fun a as s os => ?_, fun T a as xs os => ?_,
    fun name Args os => ?_, fun K V name m os => ?_, fun K V a b as m os => ?_,
    fun K V => rfl, by decide, by decide, by decide, by decide, by decide, by decide,
    by decide, by decide⟩
  · exact ⟨hint t a as, render_illFormed_of_implements_false _ _ (hint t a as) v os⟩
  · exact ⟨hstr a as, render_illFormed_of_implements_false _ _ (hstr a as) s os⟩
  · exact ⟨hvec T a as, render_illFormed_of_implements_false _ _ (hvec T a as) xs os⟩
  · exact ⟨hother name Args,
      render_illFormed_of_implements_false (.other name) Args (hother name Args) () os⟩
  · exact ⟨hmap1 K V name,
      (render_illFormed_of_implements_false _ _ (hmap1 K V name) m os).2⟩
  · exact ⟨hmap2 K V a b as,
      (render_illFormed_of_implements_false _ _ (hmap2 K V a b as) m os).2⟩

/-! ## Re-tagging -/

/-- The capability of a mapping is the same under the empty tag list and
under `Pretty`. -/
theorem implements_map_pretty (K V : Ty) :
    debug.implements (.unordered_map K V) [.Pretty]
      = debug.implements (.unordered_map K V) [] := rfl

/-- C13. Re-tagging changes the formatter and keeps the value.  The handle
returned by `args<NewArgs...>()` is the handle that `dbg` constructs with the
new tags over the same value, and it refers to the value the first handle
was constructed over; for every mapping `m`, writing
`dbg(m).args<Pretty>()` is writing a handle constructed with `Pretty`, and
writing a `Pretty` handle re-tagged to the empty tag list is writing
`dbg(m)`. -/
theorem retagging_keeps_the_value :
    (∀ (T : Ty) (Args NewArgs : List Tag) (handle : Debug T Args),
      handle.args NewArgs = dbg T NewArgs handle.inner)
    ∧ (∀ (T : Ty) (Args NewArgs : List Tag) (value : Val T)
        (handle : Debug T Args) (retagged : Debug T NewArgs),
      dbg T Args value = .ok handle → handle.args NewArgs = .ok retagged →
      retagged.inner = value)
    ∧ (∀ (K V : Ty) (m : List (Val K × Val V)) (os : OStream),
      renderArgs (.unordered_map K V) [] [.Pretty] m os
        = render (.unordered_map K V) [.Pretty] m os)
    ∧ (∀ (K V : Ty) (m : List (Val K × Val V)) (os : OStream),
      renderArgs (.unordered_map K V) [.Pretty] [] m os
        = render (.unordered_map K V) [] m os)
    ∧ renderArgs (.unordered_map (.int .int) .string) [] [.Pretty]
        ([(1, "a")] : List (Int × String)) "" = .ok "\x7b\n   1: \"a\"\n\x7d"
    ∧ renderArgs (.unordered_map (.int .int) .string) [.Pretty] []
        ([(1, "a")] : List (Int × String)) "" = .ok "\x7b1: \"a\"\x7d" := by
  refine ⟨fun T Args NewArgs handle => rfl, fun T Args NewArgs value handle retagged h1 h2 => ?_,
    fun K V m os => ?_, fun K V m os => ?_, by decide, by decide⟩
  · unfold dbg at h1
    unfold Debug.args at h2
    split at h1
    · split at h2
      · cases h1
        cases h2
        rfl
      · cases h2
    · cases h1
  · by_cases h : debug.implements (.unordered_map K V) [] = some true
    · have hp : debug.implements (.unordered_map K V) [.Pretty] = some true := by
        rw [implements_map_pretty]
        exact h
      simp [renderArgs, render, dbg, Debug.args, h, hp, Debug.insert]
    · have hp : ¬ debug.implements (.unordered_map K V) [.Pretty] = some true := by
        rw [implements_map_pretty]
        exact h
      simp [renderArgs, render, dbg, h, hp]
  · by_cases h : debug.implements (.unordered_map K V) [] = some true
    · have hp : debug.implements (.unordered_map K V) [.Pretty] = some true := by
        rw [implements_map_pretty]
        exact h
      simp [renderArgs, render, dbg, Debug.args, h, hp, Debug.insert]
    · have hp : ¬ debug.implements (.unordered_map K V) [.Pretty] = some true := by
        rw [implements_map_pretty]
        exact h
      simp [renderArgs, render, dbg, h, hp]

/-! ## Elements of a mapping are rendered by their default formatter -/

/-- The default mapping formatter, for any number of entries. -/
theorem render_map_default_text (K V : Ty) (rK : Val K → String) (rV : Val V → String)
    (hK : ∀ k, render K [] k "" = .ok (rK k)) (hV : ∀ v, render V [] v "" = .ok (rV v))
    (m : List (Val K × Val V)) (os : OStream) :
    render (.unordered_map K V) [] m os = .ok (os ++ mapText rK rV m) := by
  obtain ⟨hKi, hKw, _⟩ := run_of_render K [] (Val.default K) _ (hK (Val.default K))
  obtain ⟨hVi, hVw, _⟩ := run_of_render V [] (Val.default V) _ (hV (Val.default V))
  have h := fmtCollection_append_text os (Iterable.ofList m) "\x7b" ", " "\x7d"
    "\x7b\x7d" rfl (fun e => rK e.1 ++ ": " ++ rV e.2)
  simp only [render, dbg, debug.implements, hKi, hVi, and_self, if_true, Debug.insert,
    debug.fmt, debug.wellFormed, hKw, hVw, decide_True, Bool.and_self]
  rw [run_map_default K V rK rV hK hV]
  exact h

/-- The `Pretty` mapping formatter, for any number of entries. -/
theorem render_map_pretty_text (K V : Ty) (rK : Val K → String) (rV : Val V → String)
    (hK : ∀ k, render K [] k "" = .ok (rK k)) (hV : ∀ v, render V [] v "" = .ok (rV v))
    (m : List (Val K × Val V)) (os : OStream) :
    render (.unordered_map K V) [.Pretty] m os = .ok (os ++ prettyMapText rK rV m) := by
  obtain ⟨hKi, hKw, _⟩ := run_of_render K [] (Val.default K) _ (hK (Val.default K))
  obtain ⟨hVi, hVw, _⟩ := run_of_render V [] (Val.default V) _ (hV (Val.default V))
  have h := fmtCollection_append_text os (Iterable.ofList m) "\x7b\n" ",\n"
    "\n\x7d" "\x7b\x7d" rfl (fun e => "   " ++ rK e.1 ++ ": " ++ rV e.2)
  simp only [render, dbg, debug.implements, hKi, hVi, and_self, if_true, Debug.insert,
    debug.fmt, debug.wellFormed, hKw, hVw, decide_True, Bool.and_self]
  rw [run_map_pretty K V rK rV hK hV]
  have hfun : (fun (e : Val K × Val V) => "   " ++ entryText rK rV e)
      = (fun e => "   " ++ rK e.1 ++ ": " ++ rV e.2) := by
    funext e
    simp [entryText, String.append_assoc]
  rw [prettyMapText, hfun]
  exact h

/-- A character that occurs in none of the pieces does not occur in the join. -/
theorem joinText_not_mem (c : Char) (lBrace delimiter rBrace empty : String)
    (hl : c ∉ lBrace.data) (hd : c ∉ delimiter.data) (hr : c ∉ rBrace.data)
    (he : c ∉ empty.data) (ts : List String) (hts : ∀ t ∈ ts, c ∉ t.data) :
    c ∉ (joinText lBrace delimiter rBrace empty ts).data := by
  have htail : ∀ us : List String, (∀ t ∈ us, c ∉ t.data) →
      c ∉ (joinTail delimiter us).data := by
    intro us
    induction us with
    | nil =>
      intro _ h
      simp [joinTail] at h
    | cons u us ih =>
      intro hus h
      simp only [joinTail, String.data_append, List.mem_append] at h
      rcases h with (h | h) | h
      · exact hd h
      · exact hus u (List.mem_cons_self u us) h
      · exact ih (fun t ht => hus t (List.mem_cons_of_mem u ht)) h
  cases ts with
  | nil => exact he
  | cons t ts =>
    intro h
    simp only [joinText, String.data_append, List.mem_append] at h
    rcases h with ((h | h) | h) | h
    · exact hl h
    · exact hts t (List.mem_cons_self t ts) h
    · exact htail ts (fun u hu => hts u (List.mem_cons_of_mem t hu)) h
    · exact hr h

/-- The default text of a mapping contains a newline only if the text of one
of its own keys or values does. -/
theorem mapText_no_newline {α β : Type} (rK : α → String) (rV : β → String)
    (m : List (α × β))
    (hm : ∀ e ∈ m, '\n' ∉ (rK e.1).data ∧ '\n' ∉ (rV e.2).data) :
    '\n' ∉ (mapText rK rV m).data := by
  apply joinText_not_mem '\n' _ _ _ _ (by decide) (by decide) (by decide) (by decide)
  intro t ht
  obtain ⟨e, hmem, he⟩ := List.mem_map.mp ht
  rw [← he]
  intro h
  simp only [entryText, String.data_append, List.mem_append] at h
  rcases h with (h | h) | h
  · exact (hm e hmem).1 h
  · exact absurd h (by decide)
  · exact (hm e hmem).2 h

/-- Every character of the decimal text of an integer is a digit or the
minus sign. -/
theorem decimal_chars (v : Int) :
    ∀ c ∈ (decimal v).data, c.isDigit = true ∨ c = '-' := by
  have hdig : ∀ c ∈ (decimalNat v.natAbs).data, c.isDigit = true :=
    fun c hc => toDigitsCore_isDigit (v.natAbs + 1) v.natAbs [] (by simp) c hc
  intro c hc
  unfold decimal at hc
  split at hc
  · rw [String.data_append] at hc
    rcases List.mem_append.mp hc with h | h
    · right
      simpa using h
    · exact Or.inl (hdig c h)
  · exact Or.inl (hdig c hc)

theorem decimal_no_newline (v : Int) : '\n' ∉ (decimal v).data := by
  intro h
  rcases decimal_chars v '\n' h with h1 | h1
  · exact absurd h1 (by decide)
  · exact absurd h1 (by decide)

/-- C14, as the claim states it, fails: the mapping `{2: "x\ny"}` nested as a
value inside a `Pretty` mapping is rendered as its default rendering, and
that text contains the newline of the string; so not every nested mapping is
rendered without a newline. -/
theorem nested_mapping_newline_counterexample :
    render (.unordered_map (.int .int) (.unordered_map (.int .int) .string)) [.Pretty]
        ([(1, [(2, "x\ny")])] : List (Int × List (Int × String))) ""
      = .ok "\x7b\n   1: \x7b2: \"x\ny\"\x7d\n\x7d"
    ∧ render (.unordered_map (.int .int) .string) []
        ([(2, "x\ny")] : List (Int × String)) "" = .ok "\x7b2: \"x\ny\"\x7d"
    ∧ '\n' ∈ ("\x7b2: \"x\ny\"\x7d" : String).data
    ∧ ¬ (∀ (inner : List (Int × String)) (text : String),
          render (.unordered_map (.int .int) .string) [] inner "" = .ok text →
          '\n' ∉ text.data) := by
  refine ⟨by decide, by decide, by decide, fun h => ?_⟩
  exact h ([(2, "x\ny")] : List (Int × String)) "\x7b2: \"x\ny\"\x7d" (by decide) (by decide)

/-- C14, amended.  Elements are rendered in default mode whatever the tag of
the container: under `Pretty` every key and every value of a mapping appears
as its default rendering; a mapping nested as a value inside a `Pretty`
mapping appears as the default rendering of the inner mapping, with no added
indentation; and for each inner mapping, that text contains no newline
whenever the default renderings of that mapping's own keys and values
contain none. -/
theorem pretty_elements_render_default (K V K2 V2 : Ty)
    (rK : Val K → String) (rV : Val V → String)
    (rK2 : Val K2 → String) (rV2 : Val V2 → String)
    (hK : ∀ k, render K [] k "" = .ok (rK k)) (hV : ∀ v, render V [] v "" = .ok (rV v))
    (hK2 : ∀ k, render K2 [] k "" = .ok (rK2 k))
    (hV2 : ∀ v, render V2 [] v "" = .ok (rV2 v))
    (m : List (Val K × Val V)) (outer : List (Val K × List (Val K2 × Val V2)))
    (os : OStream) :
    render (.unordered_map K V) [.Pretty] m os = .ok (os ++ prettyMapText rK rV m)
    ∧ (∀ inner : List (Val K2 × Val V2),
        render (.unordered_map K2 V2) [] inner "" = .ok (mapText rK2 rV2 inner))
    ∧ render (.unordered_map K (.unordered_map K2 V2)) [.Pretty] outer os
        = .ok (os ++ prettyMapText rK (mapText rK2 rV2) outer)
    ∧ (∀ inner : List (Val K2 × Val V2),
        (∀ e ∈ inner, '\n' ∉ (rK2 e.1).data ∧ '\n' ∉ (rV2 e.2).data) →
        '\n' ∉ (mapText rK2 rV2 inner).data) := by
  have hinner : ∀ inner : List (Val K2 × Val V2),
      render (.unordered_map K2 V2) [] inner "" = .ok (mapText rK2 rV2 inner) := by
    intro inner
    rw [render_map_default_text K2 V2 rK2 rV2 hK2 hV2 inner ""]
    simp
  refine ⟨render_map_pretty_text K V rK rV hK hV m os, hinner, ?_,
    fun inner hin => mapText_no_newline rK2 rV2 inner hin⟩
  exact render_map_pretty_text K (.unordered_map K2 V2) rK (mapText rK2 rV2) hK hinner outer os

/-- Witness for C14: the mapping from 1 to the inner mapping `{2: "xy"}` of
strings.  The inner mapping is rendered by its default formatter, and since
the renderings of its key 2 and of its value `"xy"` contain no newline, its
text contains none. -/
theorem pretty_elements_render_default_witness :
    render (.unordered_map (.int .int) (.unordered_map (.int .int) .string)) [.Pretty]
        ([(1, [(2, "xy")])] : List (Int × List (Int × String))) ""
      = .ok "\x7b\n   1: \x7b2: \"xy\"\x7d\n\x7d"
    ∧ render (.unordered_map (.int .int) .string) []
        ([(2, "xy")] : List (Int × String)) "" = .ok "\x7b2: \"xy\"\x7d"
    ∧ mapText decimal (fun (s : String) => "\"" ++ s ++ "\"")
        ([(2, "xy")] : List (Int × String)) = "\x7b2: \"xy\"\x7d"
    ∧ '\n' ∉ (mapText decimal (fun (s : String) => "\"" ++ s ++ "\"")
        ([(2, "xy")] : List (Int × String))).data := by
  have hint : ∀ k : Int, render (.int .int) [] k "" = .ok (decimal k) := by
    intro k
    rw [render_int]
    rfl
  have h := pretty_elements_render_default (.int .int) .string (.int .int) .string
    decimal (fun (s : String) => "\"" ++ s ++ "\"") decimal
    (fun (s : String) => "\"" ++ s ++ "\"")
    hint (fun v => by rw [render_string]; simp [String.append_assoc]) hint
    (fun v => by rw [render_string]; simp [String.append_assoc])
    ([] : List (Int × String)) ([(1, [(2, "xy")])] : List (Int × List (Int × String))) ""
  refine ⟨?_, ?_, by decide, ?_⟩
  · rw [h.2.2.1]
    decide
  · rw [h.2.1]
    decide
  · apply h.2.2.2 ([(2, "xy")] : List (Int × String))
    intro e he
    have he1 : e = ((2 : Int), "xy") := by simpa using he
    rw [he1]
    exact ⟨by decide, by decide⟩

/-! ## One entry per line -/

/-- A text without newline is a single line. -/
theorem splitLines_single (a : List Char) (ha : '\n' ∉ a) : splitLines a = [a] := by
  induction a with
  | nil => rfl
  | cons c cs ih =>
    have hc : c ≠ '\n' := fun h => ha (by rw [h]; exact List.mem_cons_self _ _)
    have ih1 := ih (fun h => ha (List.mem_cons_of_mem c h))
    simp only [splitLines, hc, if_false, ih1]

/-- A text without newline followed by a newline is a line of its own. -/
theorem splitLines_append_newline (a b : List Char) (ha : '\n' ∉ a) :
    splitLines (a ++ '\n' :: b) = a :: splitLines b := by
  induction a with
  | nil => simp [splitLines]
  | cons c cs ih =>
    have hc : c ≠ '\n' := fun h => ha (by rw [h]; exact List.mem_cons_self _ _)
    have ih1 := ih (fun h => ha (List.mem_cons_of_mem c h))
    simp only [List.cons_append, splitLines, hc, if_false, List.append_eq, ih1]

theorem prettyLines_length {α β : Type} (rK : α → String) (rV : β → String)
    (m : List (α × β)) : (prettyLines rK rV m).length = m.length := by
  induction m with
  | nil => rfl
  | cons e rest ih =>
    cases rest with
    | nil => rfl
    | cons next rest =>
      simp only [prettyLines, List.length_cons] at ih ⊢
      rw [ih]

/-- Every entry line but the last ends with a comma, and the last entry line
is three spaces and the last entry. -/
theorem prettyLines_shape {α β : Type} (rK : α → String) (rV : β → String)
    (rest : List (α × β)) : ∀ e : α × β,
    (∀ line ∈ (prettyLines rK rV (e :: rest)).dropLast, line.data.getLast? = some ',')
    ∧ (prettyLines rK rV (e :: rest)).getLast?
        = some ("   " ++ entryText rK rV ((e :: rest).getLast (List.cons_ne_nil e rest))) := by
  induction rest with
  | nil =>
    intro e
    constructor
    · intro line hline
      simp [prettyLines] at hline
    · rfl
  | cons next rest ih =>
    intro e
    obtain ⟨hinit, hlast⟩ := ih next
    have hne : prettyLines rK rV (next :: rest) ≠ [] := by
      intro h
      have hlen := prettyLines_length rK rV (next :: rest)
      rw [h] at hlen
      simp at hlen
    obtain ⟨l, ls, hl⟩ := List.exists_cons_of_ne_nil hne
    constructor
    · intro line hline
      simp only [prettyLines, hl, List.dropLast_cons₂, List.mem_cons] at hline
      rcases hline with h | h
      · rw [h]
        show (("   " ++ entryText rK rV e).data ++ [',']).getLast? = some ','
        exact List.getLast?_concat _
      · rw [hl] at hinit
        exact hinit line h
    · simp only [prettyLines, hl, List.getLast?_cons_cons, List.getLast_cons_cons]
      rw [hl] at hlast
      exact hlast

/-- The entry text of a mapping has no newline when the texts of its key and
of its value have none. -/
theorem entryText_no_newline {α β : Type} (rK : α → String) (rV : β → String)
    (e : α × β) (hK : '\n' ∉ (rK e.1).data) (hV : '\n' ∉ (rV e.2).data) :
    '\n' ∉ ("   " ++ entryText rK rV e).data := by
  intro h
  simp only [entryText, String.data_append, List.mem_append] at h
  rcases h with h | (h | h) | h
  · exact absurd h (by decide)
  · exact hK h
  · exact absurd h (by decide)
  · exact hV h

/-- The part of the `Pretty` text after the opening line splits into the
entry lines and the closing brace. -/
theorem splitLines_pretty_body {α β : Type} (rK : α → String) (rV : β → String)
    (rest : List (α × β)) : ∀ e : α × β,
    (∀ x ∈ e :: rest, '\n' ∉ (rK x.1).data ∧ '\n' ∉ (rV x.2).data) →
    splitLines (("   " ++ entryText rK rV e).data
        ++ ((joinTail ",\n" (rest.map (fun x => "   " ++ entryText rK rV x))).data
          ++ ['\n', '\x7d']))
      = (prettyLines rK rV (e :: rest)).map String.data ++ [['\x7d']] := by
  have hdelim : (",\n" : String).data = [',', '\n'] := rfl
  induction rest with
  | nil =>
    intro e hn
    have he := hn e (List.mem_cons_self e [])
    have h := splitLines_append_newline ("   " ++ entryText rK rV e).data ['\x7d']
      (entryText_no_newline rK rV e he.1 he.2)
    have hb : splitLines ['\x7d'] = [['\x7d']] := by decide
    simp only [List.map_nil, joinTail, prettyLines, List.map_cons]
    rw [hb] at h
    exact h
  | cons next rest ih =>
    intro e hn
    have he := hn e (List.mem_cons_self e (next :: rest))
    have hline : '\n' ∉ ("   " ++ entryText rK rV e).data ++ [','] := by
      intro h
      rcases List.mem_append.mp h with h1 | h1
      · exact entryText_no_newline rK rV e he.1 he.2 h1
      · exact absurd h1 (by decide)
    have h := splitLines_append_newline (("   " ++ entryText rK rV e).data ++ [','])
      (("   " ++ entryText rK rV next).data
        ++ ((joinTail ",\n" (rest.map (fun x => "   " ++ entryText rK rV x))).data
          ++ ['\n', '\x7d'])) hline
    rw [ih next (fun x hx => hn x (List.mem_cons_of_mem e hx))] at h
    simp only [List.map_cons, joinTail, String.data_append, hdelim, prettyLines,
      List.append_assoc, List.cons_append, List.nil_append] at h ⊢
    exact h

/-- The characters of an entry line: three spaces, the key text, a colon and
a space, the value text. -/
theorem entry_line_chars {α β : Type} (rK : α → String) (rV : β → String) (e : α × β) :
    ("   " ++ entryText rK rV e).data
      = ' ' :: ' ' :: ' ' :: ((rK e.1).data ++ ':' :: ' ' :: (rV e.2).data) := by
  have h3 : ("   " : String).data = [' ', ' ', ' '] := rfl
  have hc : (": " : String).data = [':', ' '] := rfl
  simp only [entryText, String.data_append, h3, hc, List.cons_append, List.nil_append,
    List.append_assoc]

/-- The lines of the `Pretty` rendering of a mapping with at least one entry
whose own key and value renderings contain no newline: the line `{`, one
line per entry (three spaces, the entry, and a comma after every entry but
the last), and the line `}`. -/
theorem pretty_lines_of_entries (K V : Ty) (rK : Val K → String) (rV : Val V → String)
    (hK : ∀ k, render K [] k "" = .ok (rK k)) (hV : ∀ v, render V [] v "" = .ok (rV v))
    (entry : Val K × Val V) (rest : List (Val K × Val V))
    (hn : ∀ e ∈ entry :: rest, '\n' ∉ (rK e.1).data ∧ '\n' ∉ (rV e.2).data) :
    render (.unordered_map K V) [.Pretty] (entry :: rest) ""
        = .ok (prettyMapText rK rV (entry :: rest))
    ∧ splitLines (prettyMapText rK rV (entry :: rest)).data
        = ("\x7b" :: (prettyLines rK rV (entry :: rest) ++ ["\x7d"])).map String.data
    ∧ (splitLines (prettyMapText rK rV (entry :: rest)).data).length
        = (entry :: rest).length + 2
    ∧ (∀ line ∈ (prettyLines rK rV (entry :: rest)).dropLast,
        line.data.getLast? = some ',')
    ∧ (prettyLines rK rV (entry :: rest)).getLast?
        = some ("   " ++ entryText rK rV
            ((entry :: rest).getLast (List.cons_ne_nil entry rest))) := by
  have hlines : splitLines (prettyMapText rK rV (entry :: rest)).data
      = ("\x7b" :: (prettyLines rK rV (entry :: rest) ++ ["\x7d"])).map String.data := by
    have hopen : ("\x7b\n" : String).data = ['\x7b', '\n'] := rfl
    have hclose : ("\n\x7d" : String).data = ['\n', '\x7d'] := rfl
    have hb1 : ("\x7b" : String).data = ['\x7b'] := rfl
    have hb2 : ("\x7d" : String).data = ['\x7d'] := rfl
    have h := splitLines_append_newline ['\x7b']
      (("   " ++ entryText rK rV entry).data
        ++ ((joinTail ",\n" (rest.map (fun x => "   " ++ entryText rK rV x))).data
          ++ ['\n', '\x7d'])) (by decide)
    rw [splitLines_pretty_body rK rV rest entry hn] at h
    simp only [prettyMapText, List.map_cons, joinText, String.data_append, hopen, hclose,
      hb1, hb2, List.map_append, List.map_nil, List.append_assoc, List.cons_append,
      List.nil_append] at h ⊢
    exact h
  refine ⟨?_, hlines, ?_, (prettyLines_shape rK rV rest entry).1,
    (prettyLines_shape rK rV rest entry).2⟩
  · rw [render_map_pretty_text K V rK rV hK hV (entry :: rest) ""]
    simp
  · rw [hlines]
    simp only [List.map_cons, List.length_cons, List.length_map, List.length_append,
      prettyLines_length, List.length_nil]

/-- C15. `Pretty` entry lines, evaluated on the code.  For every mapping with
`n >= 1` entries whose own key and value renderings contain no newline, the
`Pretty` rendering has `n + 2` lines: the line `{`, one line per entry made
of three spaces, the key text, `: ` and the value text, with a comma after
it on every entry line but the last, and the line `}`.  The spec's own
mapping `{1: "a"}` gives the lines `{`, `   1: "a"`, `}`.  But the key and
value texts of the character types are single characters: the mapping from
the `int` 1 to the `unsigned char` 44 has the last entry line `   1: ,`,
which ends with a comma, and the mapping from the `unsigned char` 32 to the
`int` 1 has the entry line `    : 1`, which starts with four spaces.  With
`int` in place of `unsigned char` the lines are `   1: 44` and `   32: 1`. -/
theorem pretty_entry_lines_on_character_types :
    (∀ (K V : Ty) (rK : Val K → String) (rV : Val V → String),
      (∀ k, render K [] k "" = .ok (rK k)) → (∀ v, render V [] v "" = .ok (rV v)) →
      ∀ (entry : Val K × Val V) (rest : List (Val K × Val V)),
      (∀ e ∈ entry :: rest, '\n' ∉ (rK e.1).data ∧ '\n' ∉ (rV e.2).data) →
      render (.unordered_map K V) [.Pretty] (entry :: rest) ""
          = .ok (prettyMapText rK rV (entry :: rest))
      ∧ splitLines (prettyMapText rK rV (entry :: rest)).data
          = ("\x7b" :: (prettyLines rK rV (entry :: rest) ++ ["\x7d"])).map String.data
      ∧ (splitLines (prettyMapText rK rV (entry :: rest)).data).length
          = (entry :: rest).length + 2
      ∧ (∀ line ∈ (prettyLines rK rV (entry :: rest)).dropLast,
          line.data.getLast? = some ',')
      ∧ (prettyLines rK rV (entry :: rest)).getLast?
          = some ("   " ++ entryText rK rV
              ((entry :: rest).getLast (List.cons_ne_nil entry rest)))
      ∧ (∀ e : Val K × Val V, ("   " ++ entryText rK rV e).data
          = ' ' :: ' ' :: ' ' :: ((rK e.1).data ++ ':' :: ' ' :: (rV e.2).data)))
    ∧ render (.unordered_map (.int .int) .string) [.Pretty]
        ([(1, "a")] : List (Int × String)) "" = .ok "\x7b\n   1: \"a\"\n\x7d"
    ∧ splitLines ("\x7b\n   1: \"a\"\n\x7d" : String).data
        = (["\x7b", "   1: \"a\"", "\x7d"] : List String).map String.data
    ∧ IntTy.representable .unsignedChar 44
    ∧ render (.unordered_map (.int .int) (.int .unsignedChar)) [.Pretty]
        ([(1, 44)] : List (Int × Int)) "" = .ok "\x7b\n   1: ,\n\x7d"
    ∧ splitLines ("\x7b\n   1: ,\n\x7d" : String).data
        = (["\x7b", "   1: ,", "\x7d"] : List String).map String.data
    ∧ ("   1: ," : String).data.getLast? = some ','
    ∧ IntTy.representable .unsignedChar 32
    ∧ render (.unordered_map (.int .unsignedChar) (.int .int)) [.Pretty]
        ([(32, 1)] : List (Int × Int)) "" = .ok "\x7b\n    : 1\n\x7d"
    ∧ splitLines ("\x7b\n    : 1\n\x7d" : String).data
        = (["\x7b", "    : 1", "\x7d"] : List String).map String.data
    ∧ ("    : 1" : String).data.take 4 = [' ', ' ', ' ', ' ']
    ∧ render (.unordered_map (.int .int) (.int .int)) [.Pretty]
        ([(1, 44)] : List (Int × Int)) "" = .ok "\x7b\n   1: 44\n\x7d"
    ∧ render (.unordered_map (.int .int) (.int .int)) [.Pretty]
        ([(32, 1)] : List (Int × Int)) "" = .ok "\x7b\n   32: 1\n\x7d" := by
  refine ⟨fun K V rK rV hK hV entry rest hn => ?_, by decide, by decide, by decide,
    by decide, by decide, by decide, by decide, by decide, by decide, by decide, by decide,
    by decide⟩
  obtain ⟨h1, h2, h3, h4, h5⟩ := pretty_lines_of_entries K V rK rV hK hV entry rest hn
  exact ⟨h1, h2, h3, h4, h5, fun e => entry_line_chars rK rV e⟩

/-! ## Writing a handle appends -/

/-- C16. Writing a handle only appends.  For every prior stream content `p`
and every value with its tags, the outcome of `os << dbg(a)` is the outcome
on the empty stream with `p` left unchanged in front; and `os << dbg(a) <<
dbg(b)` leaves `p`, the text of `a`, then the text of `b`. -/
theorem writing_a_handle_appends (A B : Ty) (ArgsA ArgsB : List Tag)
    (a : Val A) (b : Val B) (p : OStream) :
    render A ArgsA a p = (render A ArgsA a "").map (fun text => p ++ text)
    ∧ (match render A ArgsA a p with
        | .error e => (Except.error e : Result)
        | .ok os1 => render B ArgsB b os1)
      = (match render A ArgsA a "" with
        | .error e => (Except.error e : Result)
        | .ok ta => (render B ArgsB b "").map (fun tb => p ++ ta ++ tb))
    ∧ (∀ ta tb : String, render A ArgsA a "" = .ok ta → render B ArgsB b "" = .ok tb →
        render A ArgsA a p = .ok (p ++ ta)
        ∧ (match render A ArgsA a p with
            | .error e => (Except.error e : Result)
            | .ok os1 => render B ArgsB b os1) = .ok (p ++ ta ++ tb))
    ∧ (match render (.int .int) [] (1 : Int) "x" with
        | .error e => (Except.error e : Result)
        | .ok os1 => render .string [] ("a" : String) os1) = .ok "x1\"a\"" := by
  have hchain : (match render A ArgsA a p with
        | .error e => (Except.error e : Result)
        | .ok os1 => render B ArgsB b os1)
      = (match render A ArgsA a "" with
        | .error e => (Except.error e : Result)
        | .ok ta => (render B ArgsB b "").map (fun tb => p ++ ta ++ tb)) := by
    rw [render_appends A ArgsA a p]
    cases ha : render A ArgsA a "" with
    | error e => rfl
    | ok ta =>
      simp only [Except.map]
      rw [render_appends B ArgsB b (p ++ ta)]
      rfl
  refine ⟨render_appends A ArgsA a p, hchain, fun ta tb ha hb => ?_, by decide⟩
  constructor
  · rw [render_appends A ArgsA a p, ha]
    rfl
  · rw [hchain, ha, hb]
    rfl

/-! ## No escaping -/

/-- C17. String rendering performs no escaping and is ambiguous.  The two
distinct single-entry mappings from strings to strings, with entry
(`a": "b`, `c`) and with entry (`a`, `b": "c`), both render as
`{"a": "b": "c"}`; the default rendering of mappings of strings is not
injective. -/
theorem string_rendering_is_ambiguous :
    render (.unordered_map .string .string) []
        ([("a\": \"b", "c")] : List (String × String)) ""
      = .ok "\x7b\"a\": \"b\": \"c\"\x7d"
    ∧ render (.unordered_map .string .string) []
        ([("a", "b\": \"c")] : List (String × String)) ""
      = .ok "\x7b\"a\": \"b\": \"c\"\x7d"
    ∧ ([("a\": \"b", "c")] : List (String × String)) ≠ [("a", "b\": \"c")]
    ∧ ¬ Function.Injective
        (fun m : List (String × String) => render (.unordered_map .string .string) [] m "") := by
  refine ⟨by decide, by decide, by decide, fun hinj => ?_⟩
  have h := @hinj ([("a\": \"b", "c")] : List (String × String)) [("a", "b\": \"c")]
    (by decide)
  exact absurd h (by decide)

/-! ## Termination -/

theorem string_text_appended (s : String) (os : OStream) :
    render .string [] s os = .ok (os ++ ("\"" ++ s ++ "\"")) := by
  rw [render_string]
  simp [String.append_assoc]

/-- A rendering that builds returns text: it never runs into undefined
behaviour, and the text does not depend on the stream. -/
theorem render_total (T : Ty) : ∀ (Args : List Tag) (value : Val T),
    debug.implements T Args = some true → debug.wellFormed T Args = true →
    ∃ text : String, ∀ os : OStream, render T Args value os = .ok (os ++ text) := by
  obtain ⟨hint, hstr, hvec, hother, hmap1, hmap2⟩ := implements_unregistered
  induction T with
  | int t =>
    intro Args value himpl _
    cases Args with
    | nil => exact ⟨ostreamInt t value, fun os => render_int t value os⟩
    | cons a as =>
      rw [hint t a as] at himpl
      cases himpl
  | string =>
    intro Args value himpl _
    cases Args with
    | nil =>
      exact ⟨_, fun os => string_text_appended value os⟩
    | cons a as =>
      rw [hstr a as] at himpl
      cases himpl
  | vector T _ =>
    intro Args value himpl hwf
    cases Args with
    | nil =>
      simp only [debug.wellFormed, Bool.and_eq_true, decide_eq_true_eq] at hwf
      obtain ⟨hTi, hins⟩ := hwf
      obtain ⟨insert, hinsert⟩ := Option.isSome_iff_exists.mp hins
      exact ⟨_, fun os => render_vector_of_insert T insert hinsert hTi value os⟩
    | cons a as =>
      rw [hvec T a as] at himpl
      cases himpl
  | unordered_map K V ihK ihV =>
    intro Args value himpl hwf
    have hchoose : debug.implements K [] = some true → debug.implements V [] = some true →
        debug.wellFormed K [] = true → debug.wellFormed V [] = true →
        ∃ (rK : Val K → String) (rV : Val V → String),
          (∀ k, render K [] k "" = .ok (rK k)) ∧ (∀ v, render V [] v "" = .ok (rV v)) := by
      intro hKi hVi hKw hVw
      refine ⟨fun k => Classical.choose (ihK [] k hKi hKw),
        fun v => Classical.choose (ihV [] v hVi hVw), fun k => ?_, fun v => ?_⟩
      · have h := Classical.choose_spec (ihK [] k hKi hKw) ""
        simpa using h
      · have h := Classical.choose_spec (ihV [] v hVi hVw) ""
        simpa using h
    match Args with
    | [] =>
      simp only [debug.wellFormed, Bool.and_eq_true, decide_eq_true_eq] at hwf
      obtain ⟨⟨⟨hKi, hVi⟩, hKw⟩, hVw⟩ := hwf
      obtain ⟨rK, rV, hK, hV⟩ := hchoose hKi hVi hKw hVw
      exact ⟨_, fun os => render_map_default_text K V rK rV hK hV value os⟩
    | [.Pretty] =>
      simp only [debug.wellFormed, Bool.and_eq_true, decide_eq_true_eq] at hwf
      obtain ⟨⟨⟨hKi, hVi⟩, hKw⟩, hVw⟩ := hwf
      obtain ⟨rK, rV, hK, hV⟩ := hchoose hKi hVi hKw hVw
      exact ⟨_, fun os => render_map_pretty_text K V rK rV hK hV value os⟩
    | [.other name] =>
      rw [hmap1 K V name] at himpl
      cases himpl
    | a :: b :: as =>
      rw [hmap2 K V a b as] at himpl
      cases himpl
  | other name =>
    intro Args value himpl _
    rw [hother name Args] at himpl
    cases himpl

/-- A rendering that does not build is rejected, whatever the value. -/
theorem render_illFormed_of_not_wellFormed (T : Ty) (Args : List Tag)
    (h : debug.wellFormed T Args = false) (value : Val T) (os : OStream) :
    render T Args value os = .error .illFormed := by
  unfold render dbg
  by_cases himpl : debug.implements T Args = some true
  · simp [himpl, Debug.insert, debug.fmt, h]
  · simp [himpl]

theorem foldr_max_le_succ {α : Type} (f g : α → Nat) (l : List α)
    (h : ∀ x ∈ l, f x ≤ g x + 1) :
    (l.map f).foldr max 0 ≤ (l.map g).foldr max 0 + 1 := by
  induction l with
  | nil => simp
  | cons x xs ih =>
    have hx := h x (List.mem_cons_self x xs)
    have hxs := ih (fun y hy => h y (List.mem_cons_of_mem x hy))
    simp only [List.map_cons, List.foldr_cons]
    omega

/-- The depth of formatter calls is at most one more than the nesting depth
of the value. -/
theorem depth_le_nesting (T : Ty) : ∀ (Args : List Tag) (value : Val T),
    debug.fmt.depth T Args value ≤ Val.nesting T value + 1 := by
  induction T with
  | int t =>
    intro Args value
    cases Args <;> simp [debug.fmt.depth, Val.nesting]
  | string =>
    intro Args value
    cases Args <;> simp [debug.fmt.depth, Val.nesting]
  | vector T _ =>
    intro Args value
    cases Args with
    | nil =>
      simp only [debug.fmt.depth, Val.nesting]
      omega
    | cons a as => simp [debug.fmt.depth]
  | unordered_map K V ihK ihV =>
    intro Args value
    have hfold : (List.map (fun (item : Val K × Val V) =>
          max (debug.fmt.depth K [] item.1) (debug.fmt.depth V [] item.2)) value).foldr max 0
        ≤ (List.map (fun (item : Val K × Val V) =>
          max (Val.nesting K item.1) (Val.nesting V item.2)) value).foldr max 0 + 1 := by
      apply foldr_max_le_succ
      intro item _
      have h1 := ihK [] item.1
      have h2 := ihV [] item.2
      omega
    match Args with
    | [] =>
      simp only [debug.fmt.depth, Val.nesting]
      omega
    | [.Pretty] =>
      simp only [debug.fmt.depth, Val.nesting]
      omega
    | [.other name] => simp [debug.fmt.depth]
    | .Pretty :: b :: as => simp [debug.fmt.depth]
    | .other name :: b :: as => simp [debug.fmt.depth]
  | other name =>
    intro Args value
    simp [debug.fmt.depth]

/-- C18. Rendering always terminates.  Rendering is a total function,
defined by recursion on the structure of the type of the value: for every
type, tag list, value and stream it either is rejected at build time (this
depends on the type and the tags only) or returns the stream with a text
appended; it never runs into undefined behaviour.  The depth of nested
formatter calls is at most one more than the nesting depth of the value. -/
theorem rendering_terminates (T : Ty) (Args : List Tag) (value : Val T) (os : OStream) :
    (∃ text : String, render T Args value os
        = if debug.implements T Args = some true ∧ debug.wellFormed T Args = true
          then .ok (os ++ text) else .error .illFormed)
    ∧ render T Args value os ≠ .error .undefinedBehaviour
    ∧ debug.fmt.depth T Args value ≤ Val.nesting T value + 1
    ∧ render (.unordered_map (.int .int) (.unordered_map .string (.vector (.int .int))))
        [.Pretty] ([(1, [("k", [1, 2])])] : List (Int × List (String × List Int))) ""
      = .ok "\x7b\n   1: \x7b\"k\": \x7b1, 2\x7d\x7d\n\x7d"
    ∧ debug.fmt.depth (.unordered_map (.int .int) (.unordered_map .string (.vector (.int .int))))
        [.Pretty] ([(1, [("k", [1, 2])])] : List (Int × List (String × List Int))) = 3
    ∧ Val.nesting (.unordered_map (.int .int) (.unordered_map .string (.vector (.int .int))))
        ([(1, [("k", [1, 2])])] : List (Int × List (String × List Int))) = 3 := by
  have hcases : ∃ text : String, render T Args value os
      = if debug.implements T Args = some true ∧ debug.wellFormed T Args = true
        then .ok (os ++ text) else .error .illFormed := by
    by_cases himpl : debug.implements T Args = some true
    · by_cases hwf : debug.wellFormed T Args = true
      · obtain ⟨text, htext⟩ := render_total T Args value himpl hwf
        exact ⟨text, by rw [htext os]; simp [himpl, hwf]⟩
      · have hwf1 : debug.wellFormed T Args = false := by simpa using hwf
        exact ⟨"", by
          rw [render_illFormed_of_not_wellFormed T Args hwf1 value os]
          simp [hwf1]⟩
    · exact ⟨"", by
        rw [(render_illFormed_of_not_implements T Args himpl value os).2]
        simp [himpl]⟩
  refine ⟨hcases, ?_, depth_le_nesting T Args value, by decide, by decide, by decide⟩
  obtain ⟨text, htext⟩ := hcases
  rw [htext]
  split <;> simp

/-! ## The last-element access of `fmtCollection` -/

/-- The loop of `fmtCollection` runs into undefined behaviour only through
its callback. -/
theorem loop_ne_undefined {Item : Type} (put : OStream → Item → Result)
    (hput : ∀ o x, put o x ≠ .error .undefinedBehaviour) (delimiter : String)
    (xs : List Item) : ∀ os : OStream,
    fmtCollection.loop put delimiter xs os ≠ .error .undefinedBehaviour := by
  induction xs with
  | nil =>
    intro os h
    simp [fmtCollection.loop] at h
  | cons x xs ih =>
    intro os h
    simp only [fmtCollection.loop, fmtCollection.step] at h
    cases hp : put os x with
    | error e =>
      rw [hp] at h
      simp only at h
      exact hput os x (by rw [hp, Except.error.inj h])
    | ok os1 =>
      rw [hp] at h
      exact ih (os1 ++ delimiter) h

/-- The out-of-range access of `fmtCollection`: with a callback that is
itself free of undefined behaviour, the run is undefined exactly when
`size()` is non-zero while the iteration yields no item. -/
theorem fmtCollection_undefined_iff {Item : Type} (os : OStream) (iter : Iterable Item)
    (lBrace : String) (put : OStream → Item → Result)
    (hput : ∀ o x, put o x ≠ .error .undefinedBehaviour)
    (delimiter rBrace empty : String) :
    fmtCollection os iter lBrace put delimiter rBrace empty = .error .undefinedBehaviour
      ↔ iter.size ≠ 0 ∧ iter.items = [] := by
  by_cases hsize : iter.size = 0
  · simp [fmtCollection, hsize]
  · cases hlast : iter.items.getLast? with
    | none =>
      have hnil : iter.items = [] := List.getLast?_eq_none_iff.mp hlast
      simp [fmtCollection, hsize, hlast, hnil]
    | some last =>
      have hne : iter.items ≠ [] := by
        intro h
        rw [h] at hlast
        simp at hlast
      constructor
      · intro h
        exfalso
        simp only [fmtCollection, hsize, if_false, hlast] at h
        cases hl : fmtCollection.loop put delimiter iter.items.dropLast (os ++ lBrace) with
        | error e =>
          rw [hl] at h
          simp only at h
          exact loop_ne_undefined put hput delimiter _ _ (by rw [hl, Except.error.inj h])
        | ok os2 =>
          rw [hl] at h
          simp only at h
          cases hp : put os2 last with
          | error e =>
            rw [hp] at h
            simp only at h
            exact hput os2 last (by rw [hp, Except.error.inj h])
          | ok os3 =>
            rw [hp] at h
            simp at h
      · intro h
        exact absurd h.2 hne

/-- C19. The last-element access of `fmtCollection` is safe under its
precondition.  When the source's `size()` is non-zero and equals the number
of items its iteration yields, the materialised vector is non-empty, the
position `--vec.end()` is the valid index `length - 1` and holds the last
item, the loop runs over exactly the first `length - 1` items, and the
final `put` reads the last item; with a callback free of undefined
behaviour the run is free of it.  For any source, the out-of-range access
happens exactly when `size()` is non-zero while the iteration yields no
item. -/
theorem last_element_access_is_safe {Item : Type} (os : OStream) (iter : Iterable Item)
    (lBrace : String) (put : OStream → Item → Result) (delimiter rBrace empty : String)
    (hne : iter.size ≠ 0) (heq : iter.size = iter.items.length) :
    iter.items ≠ []
    ∧ iter.items.length - 1 < iter.items.length
    ∧ (∃ last : Item, iter.items[iter.items.length - 1]? = some last
        ∧ iter.items.getLast? = some last
        ∧ fmtCollection os iter lBrace put delimiter rBrace empty
          = (match fmtCollection.loop put delimiter
                (iter.items.take (iter.items.length - 1)) (os ++ lBrace) with
              | .error e => .error e
              | .ok os2 =>
                match put os2 last with
                | .error e => .error e
                | .ok os3 => .ok (os3 ++ rBrace)))
    ∧ ((∀ o x, put o x ≠ .error .undefinedBehaviour) →
        fmtCollection os iter lBrace put delimiter rBrace empty ≠ .error .undefinedBehaviour)
    ∧ (∀ source : Iterable Item, (∀ o x, put o x ≠ .error .undefinedBehaviour) →
        (fmtCollection os source lBrace put delimiter rBrace empty = .error .undefinedBehaviour
          ↔ source.size ≠ 0 ∧ source.items = [])) := by
  have hitems : iter.items ≠ [] := by
    intro h
    rw [h] at heq
    exact hne heq
  have hlen : iter.items.length - 1 < iter.items.length := by
    have := List.length_pos.mpr hitems
    omega
  refine ⟨hitems, hlen, ⟨iter.items.getLast hitems, ?_, ?_, ?_⟩, fun hput h => ?_,
    fun source hput => fmtCollection_undefined_iff os source lBrace put hput delimiter rBrace
      empty⟩
  · rw [← List.getLast?_eq_getElem?]
    exact List.getLast?_eq_getLast _ hitems
  · exact List.getLast?_eq_getLast _ hitems
  · simp only [fmtCollection, hne, if_false, List.getLast?_eq_getLast _ hitems,
      List.dropLast_eq_take]
  · exact hitems ((fmtCollection_undefined_iff os iter lBrace put hput delimiter rBrace
      empty).mp h).2

/-- Witness for C19: a three-item source of a standard container, and the
source with `size()` 1 that yields nothing. -/
theorem last_element_access_is_safe_witness :
    (Iterable.ofList [1, 2, 3]).items ≠ []
    ∧ fmtCollection "" (Iterable.ofList [1, 2, 3]) "[" (fun o (n : Nat) => .ok (o ++ Nat.repr n))
        ";" "]" "E" ≠ .error .undefinedBehaviour
    ∧ fmtCollection "" (⟨1, []⟩ : Iterable Nat) "[" (fun o (n : Nat) => .ok (o ++ Nat.repr n))
        ";" "]" "E" = .error .undefinedBehaviour := by
  have h := last_element_access_is_safe "" (Iterable.ofList [1, 2, 3]) "["
    (fun o (n : Nat) => .ok (o ++ Nat.repr n)) ";" "]" "E" (by decide) (by decide)
  refine ⟨h.1, h.2.2.2.1 (fun o x hx => by cases hx), by decide⟩

end fmt
